import Mathlib

/-!
# Flow-field flock animation: a shallow embedding of `src/script.js`

The development embeds the CPU-side logic of the animation script:

* the per-frame `render` step (frame clock, behavioural-signal fetch, the linear
  mapping of the signal onto `effectController`, the draw range);
* the load callback that bakes the morph animation into a texture and expands the
  base mesh into one buffer holding `BIRDS` instances.

Conventions of the embedding.

* The numbers of the parameter mapping are IEEE 754 binary64 values (`JSNum`): a
  finite value is the rational it denotes, every arithmetic operation rounds the
  exact result to the nearest binary64 value (ties to even) and overflows to an
  infinity, and `NaN` is a value.  The sign of zero is not modelled.
* The frame clock and the load callback (texture bake, mesh expansion) are
  modelled over exact rationals (`ℚ`).
* A `for` loop over `0 .. n-1` is a left fold over `List.range n`; `push` appends.
* `Math.random()` is a stream `rand : ℕ → ℚ` read in call order.
* An exception that is not caught (reading `.array` of `undefined`) is `none`.
-/

namespace FlowField

/-! ## Binary64 rounding -/

/-- Rounding of a rational to the nearest integer, ties to the even one. -/
def roundHalfEven (q : ℚ) : ℤ :=
  let f := ⌊q⌋
  if q - f < 1 / 2 then f
  else if 1 / 2 < q - f then f + 1
  else if f % 2 = 0 then f else f + 1

/-- The binary exponent of `x`, that is `floor (log2 |x|)`, held at the exponent
`-1022` of the subnormal numbers. -/
def expo (x : ℚ) : ℤ := max (Int.log 2 |x|) (-1022)

/-- The spacing of the binary64 values around `x` (53 significant bits). -/
def ulp (x : ℚ) : ℚ := 2 ^ (expo x - 52)

/-- The nearest multiple of `ulp x`, ties to even: the binary64 rounding of `x`
as long as the exponent does not overflow. -/
def roundToGrid (x : ℚ) : ℚ := roundHalfEven (x / ulp x) * ulp x

/-! ## JavaScript numbers and values -/

/-- A JavaScript number: a finite binary64 value (given by the rational it
denotes), an infinity, or `NaN`. -/
inductive JSNum where
  | finite (q : ℚ)
  | posInf
  | negInf
  | nan
  deriving DecidableEq

/-- Rounding of an exact result to binary64: to the nearest value, ties to even;
a result that rounds to `2 ^ 1024` or beyond in magnitude is an infinity. -/
def round64 (x : ℚ) : JSNum :=
  if 2 ^ 1024 ≤ roundToGrid x then .posInf
  else if roundToGrid x ≤ -2 ^ 1024 then .negInf
  else .finite (roundToGrid x)

/-- The number that a decimal literal of the source denotes. -/
def lit (q : ℚ) : JSNum := round64 q

namespace JSNum

/-- The product of an infinity (positive or negative) and a finite number. -/
def infTimes (positive : Bool) (a : ℚ) : JSNum :=
  if a = 0 then nan
  else if 0 < a then (if positive then posInf else negInf)
  else (if positive then negInf else posInf)

/-- Binary `+` on numbers. -/
def add : JSNum → JSNum → JSNum
  | finite a, finite b => round64 (a + b)
  | finite _, posInf => posInf
  | finite _, negInf => negInf
  | posInf, finite _ => posInf
  | negInf, finite _ => negInf
  | posInf, posInf => posInf
  | negInf, negInf => negInf
  | posInf, negInf => nan
  | negInf, posInf => nan
  | nan, _ => nan
  | _, nan => nan

/-- Binary `-` on numbers. -/
def sub : JSNum → JSNum → JSNum
  | finite a, finite b => round64 (a - b)
  | finite _, posInf => negInf
  | finite _, negInf => posInf
  | posInf, finite _ => posInf
  | negInf, finite _ => negInf
  | posInf, negInf => posInf
  | negInf, posInf => negInf
  | posInf, posInf => nan
  | negInf, negInf => nan
  | nan, _ => nan
  | _, nan => nan

/-- Binary `*` on numbers. -/
def mul : JSNum → JSNum → JSNum
  | finite a, finite b => round64 (a * b)
  | finite a, posInf => infTimes true a
  | finite a, negInf => infTimes false a
  | posInf, finite b => infTimes true b
  | negInf, finite b => infTimes false b
  | posInf, posInf => posInf
  | negInf, negInf => posInf
  | posInf, negInf => negInf
  | negInf, posInf => negInf
  | nan, _ => nan
  | _, nan => nan

/-- Binary `/` on numbers.  A non-zero number divided by zero is an infinity with
the sign of the dividend (the zero divisor counts as positive). -/
def div : JSNum → JSNum → JSNum
  | finite a, finite b =>
    if b = 0 then (if a = 0 then nan else if 0 < a then posInf else negInf)
    else round64 (a / b)
  | finite _, posInf => finite 0
  | finite _, negInf => finite 0
  | posInf, finite b => if 0 ≤ b then posInf else negInf
  | negInf, finite b => if 0 ≤ b then negInf else posInf
  | posInf, posInf => nan
  | posInf, negInf => nan
  | negInf, posInf => nan
  | negInf, negInf => nan
  | nan, _ => nan
  | _, nan => nan

/-- Whether the number is finite (`Number.isFinite`). -/
def isFinite : JSNum → Bool
  | finite _ => true
  | _ => false

/-- The number `x` is finite and lies between the finite numbers `lo` and `hi`. -/
def between (x lo hi : JSNum) : Prop :=
  ∃ v a b : ℚ, x = finite v ∧ lo = finite a ∧ hi = finite b ∧ a ≤ v ∧ v ≤ b

end JSNum

/-- The JavaScript values that `fetchOverallAverage` can return: `null`,
`undefined`, a number, a boolean, or any other value (a string, an array, an
object), which is represented by the result of its numeric coercion. -/
inductive JSVal where
  | null
  | undefined
  | number (n : JSNum)
  | bool (b : Bool)
  | other (coerced : JSNum)
  deriving DecidableEq

/-- The abstract operation `ToNumber`, which `x - a1` applies to `x`. -/
def JSVal.toNumber : JSVal → JSNum
  | .null => .finite 0
  | .undefined => .nan
  | .number n => n
  | .bool b => .finite (if b then 1 else 0)
  | .other n => n

/-- The function `THREE.MathUtils.mapLinear` of the three.js library (imported,
not part of this repository): `b1 + ( x - a1 ) * ( b2 - b1 ) / ( a2 - a1 )`.
It does not clamp `x` to the range `a1 .. a2`. -/
def mapLinear (x : JSVal) (a1 a2 b1 b2 : JSNum) : JSNum :=
  b1.add (((x.toNumber.sub a1).mul (b2.sub b1)).div (a2.sub a1))

/-- The value of `mapLinear x 0 100 b1 b2` for a finite `x` when nothing
overflows, with `c` the rounded difference `b2 - b1`: three rounded operations. -/
def interp (b1 c x : ℚ) : ℚ :=
  roundToGrid (b1 + roundToGrid (roundToGrid (x * c) / 100))

/-! ## Constants and controller state (`script.js` lines 9-19, 139-161) -/

/-- The constant `WIDTH`: side of the simulation texture. -/
def WIDTH : ℕ := 64

/-- The constant `BIRDS = WIDTH * WIDTH`. -/
def BIRDS : ℕ := WIDTH * WIDTH

/-- The constant `sizes`. -/
def sizes : JSNum := lit 0.2

/-- The object `effectController`. -/
structure EffectController where
  separation : JSNum
  alignment : JSNum
  cohesion : JSNum
  freedom : JSNum
  size : JSNum
  count : JSNum
  deriving DecidableEq

/-- The initial value of `effectController`; `count` is `Math.floor( BIRDS / 4 )`. -/
def effectController : EffectController where
  separation := lit 28.0
  alignment := lit 20.0
  cohesion := lit 20.0
  freedom := lit 0.75
  size := sizes
  count := .finite (⌊(BIRDS : ℚ) / 4⌋ : ℤ)

/-- The three parameters that the stress signal controls. -/
structure Preset where
  alignment : JSNum
  cohesion : JSNum
  count : JSNum

/-- The constant `stressValues`. -/
def stressValues : Preset where
  alignment := lit 0.67
  cohesion := lit 40.55
  count := lit 4096

/-- The constant `calmValues`. -/
def calmValues : Preset where
  alignment := lit 82
  cohesion := lit 36.42
  count := lit 300

/-! ## The stress-signal fetch (`fetchOverallAverage`, lines 164-177) -/

/-- The value `data` that `response.json()` resolves to, as far as reading
`data.overall_average_stress` can tell: `null` (the read throws a `TypeError`), a
value without own named fields (number, boolean, string, array: the read gives
`undefined`), or an object with its fields. -/
inductive JsonData where
  | null
  | nonObject
  | object (fields : List (String × JSVal))

/-- The body of an HTTP response: text that `response.json()` rejects, or JSON. -/
inductive Body where
  | invalidJson
  | json (data : JsonData)

/-- What `fetch('http://localhost:5001/stress')` does: it rejects (network
error), or resolves to a response with its `ok` flag and body. -/
inductive FetchOutcome where
  | networkError
  | response (ok : Bool) (body : Body)

/-- The property read `data.overall_average_stress` on an object. -/
def lookupField (name : String) : List (String × JSVal) → JSVal
  | [] => .undefined
  | (k, v) :: rest => if k = name then v else lookupField name rest

/-- The function `fetchOverallAverage`: every exception raised in the `try`
block (rejected fetch, the explicit throw on `!response.ok`, rejected
`response.json()`, property read on `null`) is caught and gives `null`; otherwise
the result is `data.overall_average_stress`. -/
def fetchOverallAverage : FetchOutcome → JSVal
  | .networkError => .null
  | .response false _ => .null
  | .response true .invalidJson => .null
  | .response true (.json .null) => .null
  | .response true (.json .nonObject) => .undefined
  | .response true (.json (.object fields)) => lookupField "overall_average_stress" fields

/-! ## The frame step (`render`, lines 440-489) -/

/-- The uniforms `time` and `delta` of the position shader. -/
structure PositionUniforms where
  time : ℚ
  delta : ℚ

/-- The uniforms of the velocity shader that `render` writes. -/
structure VelocityUniforms where
  time : ℚ
  delta : ℚ
  separationDistance : JSNum
  alignmentDistance : JSNum
  cohesionDistance : JSNum
  freedomFactor : JSNum

/-- The uniforms of the patched bird material that `render` writes. -/
structure MaterialUniforms where
  size : JSNum
  time : ℚ
  delta : ℚ

/-- The globals that `render` reads and writes.  `materialShader` is `none`
until the material has been compiled. -/
structure State where
  last : ℚ
  positionUniforms : PositionUniforms
  velocityUniforms : VelocityUniforms
  effectController : EffectController
  materialShader : Option MaterialUniforms
  indicesPerBird : ℕ
  drawRangeStart : JSNum
  drawRangeCount : JSNum

/-- The parameter update of `render` (lines 458-462): skipped when the signal is
strictly equal to `null`, otherwise three calls of `mapLinear`. -/
def updateParameters (overallAverage : JSVal) (ec : EffectController) : EffectController :=
  match overallAverage with
  | .null => ec
  | x =>
    { ec with
      alignment := mapLinear x (lit 0) (lit 100) calmValues.alignment stressValues.alignment
      cohesion := mapLinear x (lit 0) (lit 100) calmValues.cohesion stressValues.cohesion
      count := mapLinear x (lit 0) (lit 100) calmValues.count stressValues.count }

/-- The capped frame step of `render` (lines 443-445). -/
def frameDelta (now last : ℚ) : ℚ :=
  let delta := (now - last) / 1000
  if delta > 1 then 1 else delta

/-- One call of `render` at time `now`, where the fetch of this frame behaves as
`fetch`.  The pointer, the predator uniform, the GPU compute step and the final
draw call do not touch the fields modelled here. -/
def render (now : ℚ) (fetch : FetchOutcome) (s : State) : State :=
  let delta := frameDelta now s.last
  let overallAverage := fetchOverallAverage fetch
  let ec := updateParameters overallAverage s.effectController
  { last := now
    positionUniforms := { time := now, delta := delta }
    velocityUniforms :=
      { time := now
        delta := delta
        separationDistance := ec.separation
        alignmentDistance := ec.alignment
        cohesionDistance := ec.cohesion
        freedomFactor := ec.freedom }
    effectController := ec
    materialShader := s.materialShader.map fun _ =>
      { size := ec.size, time := now / 1000, delta := delta }
    indicesPerBird := s.indicesPerBird
    drawRangeStart := lit 0
    drawRangeCount := (JSNum.finite s.indicesPerBird).mul ec.count }

/-- The state when the first frame runs: the values set by `initComputeRenderer`
and the initial `effectController`, for a mesh with `indicesPerBird` indices.  The
draw range of a new geometry starts at 0 with the count `Infinity`. -/
def initialState (start : ℚ) (indicesPerBird : ℕ) : State where
  last := start
  positionUniforms := { time := 0.0, delta := 0.0 }
  velocityUniforms :=
    { time := 1.0
      delta := 0.0
      separationDistance := lit 1.0
      alignmentDistance := lit 1.0
      cohesionDistance := lit 1.0
      freedomFactor := lit 1.0 }
  effectController := effectController
  materialShader := none
  indicesPerBird := indicesPerBird
  drawRangeStart := lit 0
  drawRangeCount := .posInf

/-- A well-formed reply carrying the stress value `s`. -/
def stressReply (s : ℚ) : FetchOutcome :=
  .response true (.json (.object [("overall_average_stress", .number (.finite s))]))

/-! ## Numeric helpers of the load callback -/

/-- Truncation toward zero, the integer part used by `%` and by `ToInt32`. -/
def jsTrunc (q : ℚ) : ℤ := if 0 ≤ q then ⌊q⌋ else ⌈q⌉

/-- The operator `%` on numbers with a non-zero divisor: the remainder has the
sign of the dividend. -/
def jsRem (a b : ℚ) : ℚ := a - b * jsTrunc (a / b)

/-- The abstract operation `ToInt32`: truncate, then wrap into `[-2^31, 2^31)`. -/
def toInt32 (q : ℚ) : ℤ :=
  let r := jsTrunc q % 2 ^ 32
  if 2 ^ 31 ≤ r then r - 2 ^ 32 else r

/-- The operator `~` (bitwise not on the 32-bit integer value). -/
def bitNot (q : ℚ) : ℤ := -(toInt32 q) - 1

/-- The idiom `~ ~ x`. -/
def bitNotNot (q : ℚ) : ℤ := bitNot (bitNot q)

/-- The function `Math.lerp` (lines 186-190). -/
def lerp (value1 value2 amount : ℚ) : ℚ :=
  let amount := max (min amount 1) 0
  value1 + (value2 - value1) * amount

/-! ## Baking the animation texture (lines 32-72) -/

/-- The constant `curMorph` of row `j`, for `length` morph frames. -/
def curMorph (j durationAnimation length : ℕ) : ℤ :=
  ⌊(j : ℚ) / durationAnimation * length⌋

/-- The constant `nextMorph` of row `j`. -/
def nextMorph (j durationAnimation length : ℕ) : ℤ :=
  Int.tmod (⌊(j : ℚ) / durationAnimation * length⌋ + 1) length

/-- The constant `lerpAmount` of row `j`. -/
def lerpAmount (j durationAnimation length : ℕ) : ℚ :=
  jsRem ((j : ℚ) / durationAnimation * length) 1

/-- The read `morphAttributes[ k ].array`: it throws (`none`) when
`morphAttributes[ k ]` is `undefined`. -/
def morphArray (morphAttributes : List (List ℚ)) (k : ℤ) : Option (List ℚ) :=
  if k < 0 then none else morphAttributes[k.toNat]?

/-- One guarded channel write
`if ( d0 !== undefined && d1 !== undefined ) tData[ idx ] = Math.lerp( d0, d1, lerpAmount )`.
A read past the end of a typed array gives `undefined`; a write past the end is ignored. -/
def writeChannel (tData : List ℚ) (idx : ℕ) (d0 d1 : Option ℚ) (amount : ℚ) : List ℚ :=
  match d0, d1 with
  | some v0, some v1 => tData.set idx (lerp v0 v1 amount)
  | _, _ => tData

/-- The body of the inner loop for column `i` and row `j` (lines 40-68). -/
def bakeCell (morphAttributes : List (List ℚ)) (durationAnimation tWidth i j : ℕ)
    (tData : List ℚ) : Option (List ℚ) :=
  let offset := j * tWidth * 4
  let cur := curMorph j durationAnimation morphAttributes.length
  let next := nextMorph j durationAnimation morphAttributes.length
  let amount := lerpAmount j durationAnimation morphAttributes.length
  if j < durationAnimation then do
    let a0 ← morphArray morphAttributes cur
    let a1 ← morphArray morphAttributes next
    let tData := writeChannel tData (offset + i * 4) a0[i * 3]? a1[i * 3]? amount
    let tData := writeChannel tData (offset + i * 4 + 1) a0[i * 3 + 1]? a1[i * 3 + 1]? amount
    let tData := writeChannel tData (offset + i * 4 + 2) a0[i * 3 + 2]? a1[i * 3 + 2]? amount
    pure (tData.set (offset + i * 4 + 3) 1)
  else
    pure tData

/-- The bake: `tData` starts as `4 * tWidth * tHeight` zeros, the outer loop runs
over the columns and the inner loop over the rows.  In the source `tWidth` and
`tHeight` come from `nextPowerOf2`; the bake is embedded for arbitrary sizes. -/
def bake (morphAttributes : List (List ℚ)) (durationAnimation tWidth tHeight : ℕ) :
    Option (List ℚ) :=
  (List.range tWidth).foldlM
    (fun tData i =>
      (List.range tHeight).foldlM
        (fun tData j => bakeCell morphAttributes durationAnimation tWidth i j tData) tData)
    (List.replicate (4 * tWidth * tHeight) 0)

/-! ## Expanding the base mesh (lines 88-107) -/

/-- The numerator of `reference.x` for the instance `bird`: `j % WIDTH` with `j = ~ ~ bird`. -/
def gridX (bird : ℤ) : ℤ := Int.tmod (bitNotNot bird) WIDTH

/-- The numerator of `reference.y` for the instance `bird`: `~ ~ ( j / WIDTH )`. -/
def gridY (bird : ℤ) : ℤ := bitNotNot ((bitNotNot bird : ℚ) / WIDTH)

/-- The loop state of the reference/seeds loop: the variable `r`, the number of
`Math.random()` calls made so far, and the two arrays. -/
structure ExpandState where
  r : ℚ
  draws : ℕ
  reference : List ℚ
  seeds : List ℚ

/-- The body of the reference/seeds loop for the replicated vertex `i`
(lines 91-98); `count` is the vertex count of the base mesh. -/
def expandStep (rand : ℕ → ℚ) (count tWidth tHeight durationAnimation : ℕ)
    (st : ExpandState) (i : ℕ) : ExpandState :=
  let bIndex := i % count
  let bird : ℤ := ⌊(i : ℚ) / count⌋
  let r := if bIndex = 0 then rand st.draws else st.r
  let draws := if bIndex = 0 then st.draws + 1 else st.draws
  let x : ℚ := (gridX bird : ℚ) / WIDTH
  let y : ℚ := (gridY bird : ℚ) / WIDTH
  { r := r
    draws := draws + 2
    reference := st.reference ++ [x, y, (bIndex : ℚ) / tWidth, (durationAnimation : ℚ) / tHeight]
    seeds := st.seeds ++ [(bird : ℚ), r, rand draws, rand (draws + 1)] }

/-- The state of the reference/seeds loop after its first `n` iterations; the
loop is started by `let r = Math.random()` (line 88). -/
def expandPrefix (rand : ℕ → ℚ) (count tWidth tHeight durationAnimation n : ℕ) : ExpandState :=
  (List.range n).foldl
    (expandStep rand count tWidth tHeight durationAnimation)
    { r := rand 0, draws := 1, reference := [], seeds := [] }

/-- The reference/seeds loop (lines 88-100): `count * BIRDS` iterations. -/
def expand (rand : ℕ → ℚ) (count tWidth tHeight durationAnimation : ℕ) : ExpandState :=
  expandPrefix rand count tWidth tHeight durationAnimation (count * BIRDS)

/-- The component `c` of item `i` of a buffer attribute with the given item size. -/
def getComponent (array : List ℚ) (itemSize i c : ℕ) : Option ℚ :=
  array[i * itemSize + c]?

/-- The indices loop (lines 102-107).  An entry is `none` where the source
would push `NaN` (base index `undefined`). -/
def expandIndices (indexArray : List ℕ) (count : ℕ) : List (Option ℕ) :=
  (List.range (indexArray.length * BIRDS)).foldl
    (fun indices (i : ℕ) =>
      let offset := (⌊(i : ℚ) / indexArray.length⌋).toNat * count
      indices ++ [indexArray[i % indexArray.length]?.map (· + offset)])
    []


/-! ## Binary64 rounding: monotonicity, error, evaluation -/

/-- Rounding to the nearest integer gives the floor or the floor plus one. -/
theorem roundHalfEven_cases (q : ℚ) :
    (roundHalfEven q = ⌊q⌋ ∧ q - ⌊q⌋ ≤ 1 / 2) ∨ (roundHalfEven q = ⌊q⌋ + 1 ∧ 1 / 2 ≤ q - ⌊q⌋) := by
  unfold roundHalfEven
  simp only
  split_ifs with h1 h2 h3
  · exact Or.inl ⟨rfl, le_of_lt h1⟩
  · exact Or.inr ⟨rfl, le_of_lt h2⟩
  · exact Or.inl ⟨rfl, not_lt.mp h2⟩
  · exact Or.inr ⟨rfl, not_lt.mp h1⟩

/-- A rational within less than a half of the integer `m` rounds to `m`. -/
theorem roundHalfEven_near (q : ℚ) (m : ℤ) (hlo : (m : ℚ) - 1 / 2 < q) (hhi : q < m + 1 / 2) :
    roundHalfEven q = m := by
  have hfl := Int.floor_le q
  have hlt := Int.lt_floor_add_one q
  rcases roundHalfEven_cases q with ⟨h, ht⟩ | ⟨h, ht⟩
  · rw [h]
    have h1 : (⌊q⌋ : ℚ) < m + 1 := by linarith
    have h2 : (m : ℚ) - 1 < ⌊q⌋ := by linarith
    have h1' : ⌊q⌋ < m + 1 := by exact_mod_cast h1
    have h2' : m - 1 < ⌊q⌋ := by exact_mod_cast h2
    omega
  · rw [h]
    have h1 : (⌊q⌋ : ℚ) < m := by linarith
    have h2 : (m : ℚ) - 2 < ⌊q⌋ := by linarith
    have h1' : ⌊q⌋ < m := by exact_mod_cast h1
    have h2' : m - 2 < ⌊q⌋ := by exact_mod_cast h2
    omega

/-- An integer rounds to itself. -/
theorem roundHalfEven_intCast (m : ℤ) : roundHalfEven (m : ℚ) = m :=
  roundHalfEven_near _ m (by linarith) (by linarith)

/-- The rounding error is at most a half. -/
theorem roundHalfEven_err (q : ℚ) : |(roundHalfEven q : ℚ) - q| ≤ 1 / 2 := by
  have hfl := Int.floor_le q
  have hlt := Int.lt_floor_add_one q
  rw [abs_le]
  rcases roundHalfEven_cases q with ⟨h, ht⟩ | ⟨h, ht⟩
  · rw [h]; constructor <;> linarith
  · rw [h]; push_cast; constructor <;> linarith

/-- Rounding to the nearest integer is monotone. -/
theorem roundHalfEven_mono {p q : ℚ} (h : p ≤ q) : roundHalfEven p ≤ roundHalfEven q := by
  rcases lt_or_eq_of_le (Int.floor_mono h) with hf | hf
  · have hp : roundHalfEven p ≤ ⌊p⌋ + 1 := by
      rcases roundHalfEven_cases p with ⟨e, _⟩ | ⟨e, _⟩ <;> omega
    have hq : ⌊q⌋ ≤ roundHalfEven q := by
      rcases roundHalfEven_cases q with ⟨e, _⟩ | ⟨e, _⟩ <;> omega
    omega
  · rcases eq_or_lt_of_le h with rfl | hlt
    · exact le_refl _
    · unfold roundHalfEven
      simp only
      rw [← hf]
      split_ifs <;> first | omega | (exfalso; linarith)

/-- Rounding to the nearest integer, ties to even, is odd. -/
theorem roundHalfEven_neg (q : ℚ) : roundHalfEven (-q) = -roundHalfEven q := by
  by_cases hint : (⌊q⌋ : ℚ) = q
  · rw [← hint, ← Int.cast_neg, roundHalfEven_intCast, roundHalfEven_intCast]
  · have hfl := Int.floor_le q
    have hlt := Int.lt_floor_add_one q
    have hne : (⌊q⌋ : ℚ) < q := lt_of_le_of_ne hfl hint
    have hfn : ⌊-q⌋ = -⌊q⌋ - 1 := by
      rw [Int.floor_eq_iff]
      push_cast
      constructor <;> linarith
    unfold roundHalfEven
    simp only
    rw [hfn]
    push_cast
    split_ifs <;> first | omega | (exfalso; linarith)


/-- Powers of two are positive. -/
theorem two_zpow_pos (n : ℤ) : (0 : ℚ) < 2 ^ n := zpow_pos (by norm_num) n

/-- Powers of two grow with the exponent. -/
theorem two_zpow_le {m n : ℤ} (h : m ≤ n) : (2 : ℚ) ^ m ≤ 2 ^ n :=
  zpow_le_zpow_right₀ (by norm_num) h

/-- The exponent law for powers of two. -/
theorem two_zpow_add (m n : ℤ) : (2 : ℚ) ^ (m + n) = 2 ^ m * 2 ^ n :=
  zpow_add₀ (by norm_num) m n

/-- The spacing is positive. -/
theorem ulp_pos (x : ℚ) : 0 < ulp x := two_zpow_pos _

/-- The binary logarithm of a number in the binade `[2^e, 2^(e+1))` is `e`. -/
theorem log_eq_of_bounds (a : ℚ) (e : ℤ) (hlo : 2 ^ e ≤ a) (hhi : a < 2 ^ (e + 1)) :
    Int.log 2 a = e := by
  have ha : 0 < a := lt_of_lt_of_le (two_zpow_pos e) hlo
  have h1 : e ≤ Int.log 2 a := by
    rw [← Int.zpow_le_iff_le_log (by norm_num) ha]
    simpa using hlo
  have h2 : Int.log 2 a < e + 1 := by
    rw [← Int.lt_zpow_iff_log_lt (by norm_num) ha]
    simpa using hhi
  omega

/-- The binary logarithm of a positive number below `2^(k+1)` is at most `k`. -/
theorem log_le_of_lt (a : ℚ) (k : ℤ) (ha : 0 < a) (hhi : a < 2 ^ (k + 1)) :
    Int.log 2 a ≤ k := by
  have h2 : Int.log 2 a < k + 1 := by
    rw [← Int.lt_zpow_iff_log_lt (by norm_num) ha]
    simpa using hhi
  omega

/-- A positive number is at least two to its binary logarithm. -/
theorem zpow_log_le (a : ℚ) (ha : 0 < a) : (2 : ℚ) ^ Int.log 2 a ≤ a := by
  simpa using Int.zpow_log_le_self (b := 2) (by norm_num) ha

/-- A number is below two to its binary logarithm plus one. -/
theorem lt_zpow_log_succ (a : ℚ) : a < (2 : ℚ) ^ (Int.log 2 a + 1) := by
  simpa using Int.lt_zpow_succ_log_self (b := 2) (by norm_num) a

/-- The exponent of a number in a normal binade. -/
theorem expo_eq_of_bounds (x : ℚ) (e : ℤ) (he : -1022 ≤ e) (hlo : 2 ^ e ≤ |x|)
    (hhi : |x| < 2 ^ (e + 1)) : expo x = e := by
  unfold expo
  rw [log_eq_of_bounds _ e hlo hhi]
  exact max_eq_left he

/-- The exponent does not depend on the sign. -/
theorem expo_neg (x : ℚ) : expo (-x) = expo x := by
  unfold expo; rw [abs_neg]

/-- The spacing does not depend on the sign. -/
theorem ulp_neg (x : ℚ) : ulp (-x) = ulp x := by
  unfold ulp; rw [expo_neg]

/-- Rounding commutes with negation. -/
theorem roundToGrid_neg (x : ℚ) : roundToGrid (-x) = -roundToGrid x := by
  unfold roundToGrid
  rw [ulp_neg, neg_div, roundHalfEven_neg]
  push_cast
  ring

/-- Zero rounds to zero. -/
theorem roundToGrid_zero : roundToGrid 0 = 0 := by
  unfold roundToGrid
  rw [zero_div]
  have : roundHalfEven 0 = 0 := by simpa using roundHalfEven_intCast 0
  rw [this]; simp

/-- Evaluation of the rounding: a value of binade `e` within less than half a spacing of `m * 2^(e-52)` rounds to it. -/
theorem roundToGrid_eq (x : ℚ) (e m : ℤ) (he : -1022 ≤ e) (hlo : 2 ^ e ≤ |x|)
    (hhi : |x| < 2 ^ (e + 1))
    (hnlo : (m : ℚ) * 2 ^ (e - 52) - 2 ^ (e - 53) < x)
    (hnhi : x < (m : ℚ) * 2 ^ (e - 52) + 2 ^ (e - 53)) :
    roundToGrid x = m * 2 ^ (e - 52) := by
  unfold roundToGrid ulp
  rw [expo_eq_of_bounds x e he hlo hhi]
  have hu := two_zpow_pos (e - 52)
  have hhalf : (2 : ℚ) ^ (e - 53) = 2 ^ (e - 52) * (1 / 2) := by
    have : e - 53 = (e - 52) + (-1) := by ring
    rw [this, two_zpow_add]; norm_num
  rw [roundHalfEven_near (x / 2 ^ (e - 52)) m]
  · rw [lt_div_iff₀ hu]; rw [hhalf] at hnlo; linarith
  · rw [div_lt_iff₀ hu]; rw [hhalf] at hnhi; linarith

/-- A non-negative number rounds to a non-negative number. -/
theorem roundToGrid_nonneg {x : ℚ} (hx : 0 ≤ x) : 0 ≤ roundToGrid x := by
  unfold roundToGrid
  apply mul_nonneg _ (le_of_lt (ulp_pos x))
  have h0 : roundHalfEven 0 = 0 := by simpa using roundHalfEven_intCast 0
  have := roundHalfEven_mono (div_nonneg hx (le_of_lt (ulp_pos x)))
  rw [h0] at this
  exact_mod_cast this

/-- The exponent is monotone on the positive numbers. -/
theorem expo_mono_of_pos {x y : ℚ} (hx : 0 < x) (hxy : x ≤ y) : expo x ≤ expo y := by
  unfold expo
  rw [abs_of_pos hx, abs_of_pos (lt_of_lt_of_le hx hxy)]
  exact max_le_max (Int.log_mono_right hx hxy) (le_refl _)

/-- Rounding is monotone on the positive numbers. -/
theorem roundToGrid_mono_pos {x y : ℚ} (hx : 0 < x) (hxy : x ≤ y) :
    roundToGrid x ≤ roundToGrid y := by
  have hy : 0 < y := lt_of_lt_of_le hx hxy
  rcases lt_or_eq_of_le (expo_mono_of_pos hx hxy) with hlt | heq
  · have hxu : roundToGrid x ≤ 2 ^ (expo x + 1) := by
      unfold roundToGrid ulp
      have hu := two_zpow_pos (expo x - 52)
      have hxlt : x < 2 ^ (expo x + 1) := by
        have h1 := lt_zpow_log_succ |x|
        rw [abs_of_pos hx] at h1
        refine lt_of_lt_of_le h1 (two_zpow_le ?_)
        unfold expo
        rw [abs_of_pos hx]
        have := le_max_left (Int.log 2 x) (-1022)
        omega
      have hq : x / 2 ^ (expo x - 52) ≤ ((2 ^ 53 : ℤ) : ℚ) := by
        rw [div_le_iff₀ hu]
        have : (2 : ℚ) ^ (expo x + 1) = ((2 ^ 53 : ℤ) : ℚ) * 2 ^ (expo x - 52) := by
          have e1 : expo x + 1 = 53 + (expo x - 52) := by ring
          rw [e1, two_zpow_add]; norm_num
        linarith
      have hr := roundHalfEven_mono hq
      rw [roundHalfEven_intCast] at hr
      have hr' : ((roundHalfEven (x / 2 ^ (expo x - 52)) : ℤ) : ℚ) ≤ ((2 ^ 53 : ℤ) : ℚ) := by
        exact_mod_cast hr
      have e1 : (2 : ℚ) ^ (expo x + 1) = ((2 ^ 53 : ℤ) : ℚ) * 2 ^ (expo x - 52) := by
        have e1 : expo x + 1 = 53 + (expo x - 52) := by ring
        rw [e1, two_zpow_add]; norm_num
      rw [e1]
      exact mul_le_mul_of_nonneg_right hr' (le_of_lt hu)
    have hyl : (2 : ℚ) ^ expo y ≤ roundToGrid y := by
      unfold roundToGrid ulp
      have hu := two_zpow_pos (expo y - 52)
      have hlog : expo y = Int.log 2 y := by
        have h1 : -1022 ≤ expo x := by unfold expo; exact le_max_right _ _
        unfold expo at hlt ⊢
        rw [abs_of_pos hy] at hlt ⊢
        rcases max_cases (Int.log 2 y) (-1022) with ⟨h, _⟩ | ⟨h, _⟩
        · exact h
        · rw [h] at hlt
          have := le_max_right (Int.log 2 |x|) (-1022)
          omega
      have hyge : (2 : ℚ) ^ expo y ≤ y := by
        rw [hlog]; exact zpow_log_le y hy
      have e1 : (2 : ℚ) ^ expo y = ((2 ^ 52 : ℤ) : ℚ) * 2 ^ (expo y - 52) := by
        have e1 : expo y = 52 + (expo y - 52) := by ring
        nth_rewrite 1 [e1]
        rw [two_zpow_add]; norm_num
      have hq : ((2 ^ 52 : ℤ) : ℚ) ≤ y / 2 ^ (expo y - 52) := by
        rw [le_div_iff₀ hu]; linarith
      have hr := roundHalfEven_mono hq
      rw [roundHalfEven_intCast] at hr
      have hr' : ((2 ^ 52 : ℤ) : ℚ) ≤ ((roundHalfEven (y / 2 ^ (expo y - 52)) : ℤ) : ℚ) := by
        exact_mod_cast hr
      rw [e1]
      exact mul_le_mul_of_nonneg_right hr' (le_of_lt hu)
    have hmid : (2 : ℚ) ^ (expo x + 1) ≤ 2 ^ expo y := two_zpow_le (by omega)
    linarith
  · unfold roundToGrid ulp
    rw [heq]
    have hu := two_zpow_pos (expo y - 52)
    have hq : x / 2 ^ (expo y - 52) ≤ y / 2 ^ (expo y - 52) :=
      div_le_div_of_nonneg_right hxy (le_of_lt hu)
    have hr := roundHalfEven_mono hq
    have hr' : ((roundHalfEven (x / 2 ^ (expo y - 52)) : ℤ) : ℚ)
        ≤ ((roundHalfEven (y / 2 ^ (expo y - 52)) : ℤ) : ℚ) := by exact_mod_cast hr
    exact mul_le_mul_of_nonneg_right hr' (le_of_lt hu)

/-- Rounding is monotone. -/
theorem roundToGrid_mono {x y : ℚ} (hxy : x ≤ y) : roundToGrid x ≤ roundToGrid y := by
  rcases lt_or_le 0 x with hx | hx
  · exact roundToGrid_mono_pos hx hxy
  · rcases le_or_lt 0 y with hy | hy
    · have h1 : roundToGrid x ≤ 0 := by
        have := roundToGrid_nonneg (neg_nonneg.mpr hx)
        rw [roundToGrid_neg] at this
        linarith
      exact le_trans h1 (roundToGrid_nonneg hy)
    · have := roundToGrid_mono_pos (neg_pos.mpr hy) (neg_le_neg hxy)
      rw [roundToGrid_neg, roundToGrid_neg] at this
      linarith

/-- The rounding error is at most half a spacing. -/
theorem roundToGrid_err (x : ℚ) : |roundToGrid x - x| ≤ ulp x / 2 := by
  unfold roundToGrid
  have hu := ulp_pos x
  have h := roundHalfEven_err (x / ulp x)
  have e : (roundHalfEven (x / ulp x) : ℚ) * ulp x - x
      = ((roundHalfEven (x / ulp x) : ℚ) - x / ulp x) * ulp x := by
    field_simp
  rw [e, abs_mul, abs_of_pos hu]
  calc |(roundHalfEven (x / ulp x) : ℚ) - x / ulp x| * ulp x ≤ 1 / 2 * ulp x :=
        mul_le_mul_of_nonneg_right h (le_of_lt hu)
    _ = ulp x / 2 := by ring

/-- The rounding error of a number below `2^(k+1)` in magnitude is at most `2^(k-53)`. -/
theorem roundToGrid_err_le (x : ℚ) (k : ℤ) (hk : -1022 ≤ k) (hx : |x| < 2 ^ (k + 1)) :
    |roundToGrid x - x| ≤ 2 ^ (k - 53) := by
  rcases eq_or_ne x 0 with rfl | hne
  · rw [roundToGrid_zero]; simp; exact le_of_lt (two_zpow_pos _)
  · have hpos : 0 < |x| := abs_pos.mpr hne
    have hexp : expo x ≤ k := by
      unfold expo
      exact max_le (log_le_of_lt _ k hpos hx) hk
    have h := roundToGrid_err x
    have hul : ulp x / 2 ≤ 2 ^ (k - 53) := by
      unfold ulp
      have e1 : (2 : ℚ) ^ (k - 53) = 2 ^ (k - 52) / 2 := by
        have : k - 53 = (k - 52) + (-1) := by ring
        rw [this, two_zpow_add]; norm_num; ring
      rw [e1]
      have := two_zpow_le (show expo x - 52 ≤ k - 52 by omega)
      linarith
    linarith


/-- Evaluation of the rounding, with the binade conditions split by sign. -/
theorem roundToGrid_eval (x r : ℚ) (e m : ℤ) (he : -1022 ≤ e)
    (hlo : 2 ^ e ≤ x ∨ x ≤ -2 ^ e) (hhi : -2 ^ (e + 1) < x ∧ x < 2 ^ (e + 1))
    (hr : r = m * 2 ^ (e - 52)) (hnlo : r - 2 ^ (e - 53) < x) (hnhi : x < r + 2 ^ (e - 53)) :
    roundToGrid x = r := by
  rw [hr] at hnlo hnhi ⊢
  refine roundToGrid_eq x e m he ?_ ?_ hnlo hnhi
  · rw [le_abs]
    rcases hlo with h | h
    · exact Or.inl h
    · exact Or.inr (by linarith)
  · rw [abs_lt]; exact hhi

/-- Two to the thousandth is a grid point. -/
theorem roundToGrid_two_pow_1000 : roundToGrid (2 ^ 1000) = 2 ^ 1000 :=
  roundToGrid_eval _ _ 1000 (2 ^ 52) (by norm_num) (by norm_num) (by norm_num) (by norm_num)
    (by norm_num) (by norm_num)

/-- Two to the 1024 is a grid point of the unbounded grid. -/
theorem roundToGrid_two_pow_1024 : roundToGrid (2 ^ 1024) = 2 ^ 1024 :=
  roundToGrid_eval _ _ 1024 (2 ^ 52) (by norm_num) (by norm_num) (by norm_num) (by norm_num)
    (by norm_num) (by norm_num)

/-- A rounded result of magnitude below `2 ^ 1024` is that finite number. -/
theorem round64_of_lt (x : ℚ) (hlo : -2 ^ 1024 < roundToGrid x) (hhi : roundToGrid x < 2 ^ 1024) :
    round64 x = .finite (roundToGrid x) := by
  unfold round64
  rw [if_neg (not_le.mpr hhi), if_neg (not_le.mpr hlo)]

/-- No overflow for an exact result of magnitude at most `2 ^ 1000`. -/
theorem round64_finite (x : ℚ) (hx : |x| ≤ 2 ^ 1000) : round64 x = .finite (roundToGrid x) := by
  obtain ⟨h1, h2⟩ := abs_le.mp hx
  have hhi := roundToGrid_mono h2
  rw [roundToGrid_two_pow_1000] at hhi
  have hlo := roundToGrid_mono h1
  rw [roundToGrid_neg, roundToGrid_two_pow_1000] at hlo
  have hbig : (2 : ℚ) ^ 1000 < 2 ^ 1024 := by norm_num
  exact round64_of_lt x (by linarith) (by linarith)

/-- Evaluation of a rounded operation whose result is finite. -/
theorem round64_eval (x r : ℚ) (e m : ℤ) (he : -1022 ≤ e)
    (hlo : 2 ^ e ≤ x ∨ x ≤ -2 ^ e) (hhi : -2 ^ (e + 1) < x ∧ x < 2 ^ (e + 1))
    (hr : r = m * 2 ^ (e - 52)) (hnlo : r - 2 ^ (e - 53) < x) (hnhi : x < r + 2 ^ (e - 53))
    (hfin : -2 ^ 1024 < r ∧ r < 2 ^ 1024) : round64 x = .finite r := by
  have h := roundToGrid_eval x r e m he hlo hhi hr hnlo hnhi
  rw [round64_of_lt x (by rw [h]; exact hfin.1) (by rw [h]; exact hfin.2), h]

/-- An exact result zero is the number zero. -/
theorem round64_of_eq_zero (x : ℚ) (h : x = 0) : round64 x = .finite 0 := by
  subst h
  have hz := roundToGrid_zero
  rw [round64_of_lt 0 (by rw [hz]; norm_num) (by rw [hz]; norm_num), hz]

/-- An exact result of `2 ^ 1024` or more overflows to `Infinity`. -/
theorem round64_of_ge (x : ℚ) (h : 2 ^ 1024 ≤ x) : round64 x = .posInf := by
  have hm := roundToGrid_mono h
  rw [roundToGrid_two_pow_1024] at hm
  unfold round64
  rw [if_pos hm]

/-- An exact result of `-2 ^ 1024` or less overflows to `-Infinity`. -/
theorem round64_of_le (x : ℚ) (h : x ≤ -2 ^ 1024) : round64 x = .negInf := by
  have hm := roundToGrid_mono h
  rw [roundToGrid_neg, roundToGrid_two_pow_1024] at hm
  unfold round64
  have hpos : (0 : ℚ) < 2 ^ 1024 := by norm_num
  rw [if_neg (by linarith), if_pos hm]

/-- An integer of magnitude below `2 ^ 53`, scaled by a power of two not below the
smallest subnormal, is a grid point. -/
theorem roundToGrid_int_mul_zpow (m j : ℤ) (hm : |m| < 2 ^ 53) (hj : -1074 ≤ j) :
    roundToGrid ((m : ℚ) * 2 ^ j) = m * 2 ^ j := by
  rcases eq_or_ne m 0 with rfl | hne
  · simp [roundToGrid_zero]
  · have hj0 := two_zpow_pos j
    have hmq : (0 : ℚ) < |(m : ℚ)| := abs_pos.mpr (by exact_mod_cast hne)
    have hx : 0 < |(m : ℚ) * 2 ^ j| := by
      rw [abs_mul, abs_of_pos hj0]; exact mul_pos hmq hj0
    have hlt : |(m : ℚ) * 2 ^ j| < 2 ^ (j + 52 + 1) := by
      rw [abs_mul, abs_of_pos hj0]
      have e1 : (2 : ℚ) ^ (j + 52 + 1) = 2 ^ 53 * 2 ^ j := by
        have : j + 52 + 1 = 53 + j := by ring
        rw [this, two_zpow_add]; norm_num
      rw [e1]
      have hm' : |(m : ℚ)| < 2 ^ 53 := by
        have : ((|m| : ℤ) : ℚ) < ((2 ^ 53 : ℤ) : ℚ) := by exact_mod_cast hm
        simpa using this
      exact mul_lt_mul_of_pos_right hm' hj0
    have hexp : expo ((m : ℚ) * 2 ^ j) ≤ j + 52 := by
      unfold expo
      exact max_le (log_le_of_lt _ _ hx hlt) (by omega)
    unfold roundToGrid ulp
    generalize expo ((m : ℚ) * 2 ^ j) = E at hexp
    have hu := two_zpow_pos (E - 52)
    obtain ⟨d, hd⟩ : ∃ d : ℕ, (d : ℤ) = j + 52 - E := ⟨(j + 52 - E).toNat, by omega⟩
    have hq : (m : ℚ) * 2 ^ j / 2 ^ (E - 52) = ((m * 2 ^ d : ℤ) : ℚ) := by
      rw [div_eq_iff (ne_of_gt hu)]
      push_cast
      have e1 : j = (d : ℤ) + (E - 52) := by omega
      have e2 : (2 : ℚ) ^ j = 2 ^ (d : ℤ) * 2 ^ (E - 52) := by
        nth_rewrite 1 [e1]; exact two_zpow_add _ _
      rw [e2, zpow_natCast]
      ring
    rw [hq, roundHalfEven_intCast, ← hq]
    field_simp

/-! ## Arithmetic on JavaScript numbers -/

/-- The quotient of two finite numbers with a non-zero divisor is the rounded
exact quotient. -/
theorem div_finite (a b : ℚ) (hb : b ≠ 0) :
    (JSNum.finite a).div (.finite b) = round64 (a / b) := by
  simp only [JSNum.div, if_neg hb]

/-- The operand `NaN` makes a difference `NaN`. -/
theorem sub_nan_left (a : JSNum) : JSNum.nan.sub a = .nan := by
  cases a <;> rfl

/-- The operand `NaN` makes a product `NaN`. -/
theorem mul_nan_left (a : JSNum) : JSNum.nan.mul a = .nan := by
  cases a <;> rfl

/-- The operand `NaN` makes a product `NaN`, on the right as well. -/
theorem mul_nan_right (a : JSNum) : a.mul .nan = .nan := by
  cases a <;> rfl

/-- The operand `NaN` makes a quotient `NaN`. -/
theorem div_nan_left (a : JSNum) : JSNum.nan.div a = .nan := by
  cases a <;> rfl

/-- The operand `NaN` makes a sum `NaN`. -/
theorem add_nan_right (a : JSNum) : a.add .nan = .nan := by
  cases a <;> rfl

/-- The product of two numbers does not depend on their order. -/
theorem mul_comm_num (a b : JSNum) : a.mul b = b.mul a := by
  cases a <;> cases b <;> simp [JSNum.mul, mul_comm]

/-- A call of `mapLinear` on a value that coerces to `NaN` gives `NaN`. -/
theorem mapLinear_nan (x : JSVal) (a1 a2 b1 b2 : JSNum) (hx : x.toNumber = .nan) :
    mapLinear x a1 a2 b1 b2 = .nan := by
  unfold mapLinear
  rw [hx, sub_nan_left, mul_nan_left, div_nan_left, add_nan_right]

/-! ## The literals and the rounded operations of the parameter mapping -/

/-- The literal `0` as a binary64 value. -/
theorem lit_zero :
    lit 0 = .finite 0 :=
  round64_of_eq_zero _ (by norm_num)

/-- The literal `100` as a binary64 value. -/
theorem lit_hundred :
    lit 100 = .finite 100 :=
  round64_eval _ _ 6 7036874417766400 (by norm_num) (by norm_num) (by norm_num)
      (by norm_num) (by norm_num) (by norm_num) (by norm_num)

/-- The literal `82` as a binary64 value. -/
theorem lit_calm_alignment :
    lit 82 = .finite 82 :=
  round64_eval _ _ 6 5770237022568448 (by norm_num) (by norm_num) (by norm_num)
      (by norm_num) (by norm_num) (by norm_num) (by norm_num)

/-- The literal `0.67` as a binary64 value. -/
theorem lit_stress_alignment :
    lit 0.67 = .finite (6034823500676465 / 9007199254740992) :=
  round64_eval _ _ (-1) 6034823500676465 (by norm_num) (by norm_num) (by norm_num)
      (by norm_num) (by norm_num) (by norm_num) (by norm_num)

/-- The literal `36.42` as a binary64 value. -/
theorem lit_calm_cohesion :
    lit 36.42 = .finite (2562829662950523 / 70368744177664) :=
  round64_eval _ _ 5 5125659325901046 (by norm_num) (by norm_num) (by norm_num)
      (by norm_num) (by norm_num) (by norm_num) (by norm_num)

/-- The literal `40.55` as a binary64 value. -/
theorem lit_stress_cohesion :
    lit 40.55 = .finite (2853452576404275 / 70368744177664) :=
  round64_eval _ _ 5 5706905152808550 (by norm_num) (by norm_num) (by norm_num)
      (by norm_num) (by norm_num) (by norm_num) (by norm_num)

/-- The literal `300` as a binary64 value. -/
theorem lit_calm_count :
    lit 300 = .finite 300 :=
  round64_eval _ _ 8 5277655813324800 (by norm_num) (by norm_num) (by norm_num)
      (by norm_num) (by norm_num) (by norm_num) (by norm_num)

/-- The literal `4096` as a binary64 value. -/
theorem lit_stress_count :
    lit 4096 = .finite 4096 :=
  round64_eval _ _ 12 4503599627370496 (by norm_num) (by norm_num) (by norm_num)
      (by norm_num) (by norm_num) (by norm_num) (by norm_num)

/-- The literal `41.335` as a binary64 value. -/
theorem lit_alignment_50 :
    lit 41.335 = .finite (5817384081167483 / 140737488355328) :=
  round64_eval _ _ 5 5817384081167483 (by norm_num) (by norm_num) (by norm_num)
      (by norm_num) (by norm_num) (by norm_num) (by norm_num)

/-- The literal `38.485` as a binary64 value. -/
theorem lit_cohesion_50 :
    lit 38.485 = .finite (2708141119677399 / 70368744177664) :=
  round64_eval _ _ 5 5416282239354798 (by norm_num) (by norm_num) (by norm_num)
      (by norm_num) (by norm_num) (by norm_num) (by norm_num)

/-- The literal `2198` as a binary64 value. -/
theorem lit_count_50 :
    lit 2198 = .finite 2198 :=
  round64_eval _ _ 11 4833453115703296 (by norm_num) (by norm_num) (by norm_num)
      (by norm_num) (by norm_num) (by norm_num) (by norm_num)

/-- The literal `20.0` as a binary64 value. -/
theorem lit_twenty :
    lit 20.0 = .finite 20 :=
  round64_eval _ _ 4 5629499534213120 (by norm_num) (by norm_num) (by norm_num)
      (by norm_num) (by norm_num) (by norm_num) (by norm_num)

/-- The literal `28.0` as a binary64 value. -/
theorem lit_twenty_eight :
    lit 28.0 = .finite 28 :=
  round64_eval _ _ 4 7881299347898368 (by norm_num) (by norm_num) (by norm_num)
      (by norm_num) (by norm_num) (by norm_num) (by norm_num)

/-- The rounded difference `stressed - calm` of the alignment presets. -/
theorem sub_presets_alignment :
    (lit 0.67).sub (lit 82) = .finite (-5723089963969413 / 70368744177664) := by
  rw [lit_stress_alignment, lit_calm_alignment]
  exact round64_eval _ _ 6 (-5723089963969413) (by norm_num) (by norm_num) (by norm_num) (by norm_num) (by norm_num) (by norm_num) (by norm_num)

/-- The rounded difference `stressed - calm` of the cohesion presets. -/
theorem sub_presets_cohesion :
    (lit 40.55).sub (lit 36.42) = .finite (36327864181719 / 8796093022208) := by
  rw [lit_stress_cohesion, lit_calm_cohesion]
  exact round64_eval _ _ 2 4649966615260032 (by norm_num) (by norm_num) (by norm_num) (by norm_num) (by norm_num) (by norm_num) (by norm_num)

/-- The rounded difference `stressed - calm` of the count presets. -/
theorem sub_presets_count :
    (lit 4096).sub (lit 300) = .finite 3796 := by
  rw [lit_stress_count, lit_calm_count]
  exact round64_eval _ _ 11 8347492278075392 (by norm_num) (by norm_num) (by norm_num) (by norm_num) (by norm_num) (by norm_num) (by norm_num)

/-- The three rounded operations of the alignment mapping at signal 0. -/
theorem alignment_at_0 :
    (JSNum.finite 82).add (((JSNum.finite (-5723089963969413 / 70368744177664)).mul (.finite 0)).div (.finite 100))
      = .finite 82 := by
  have hp : (JSNum.finite (-5723089963969413 / 70368744177664)).mul (.finite 0) = .finite 0 :=
    round64_of_eq_zero _ (by norm_num)
  have hq : (JSNum.finite 0).div (.finite 100) = .finite 0 :=
    (div_finite _ _ (by norm_num)).trans
      (round64_of_eq_zero _ (by norm_num))
  have hr : (JSNum.finite 82).add (.finite 0) = .finite 82 :=
    round64_eval _ _ 6 5770237022568448 (by norm_num) (by norm_num) (by norm_num)
      (by norm_num) (by norm_num) (by norm_num) (by norm_num)
  rw [hp, hq, hr]

/-- The three rounded operations of the cohesion mapping at signal 0. -/
theorem cohesion_at_0 :
    (JSNum.finite (2562829662950523 / 70368744177664)).add (((JSNum.finite (36327864181719 / 8796093022208)).mul (.finite 0)).div (.finite 100))
      = .finite (2562829662950523 / 70368744177664) := by
  have hp : (JSNum.finite (36327864181719 / 8796093022208)).mul (.finite 0) = .finite 0 :=
    round64_of_eq_zero _ (by norm_num)
  have hq : (JSNum.finite 0).div (.finite 100) = .finite 0 :=
    (div_finite _ _ (by norm_num)).trans
      (round64_of_eq_zero _ (by norm_num))
  have hr : (JSNum.finite (2562829662950523 / 70368744177664)).add (.finite 0) = .finite (2562829662950523 / 70368744177664) :=
    round64_eval _ _ 5 5125659325901046 (by norm_num) (by norm_num) (by norm_num)
      (by norm_num) (by norm_num) (by norm_num) (by norm_num)
  rw [hp, hq, hr]

/-- The three rounded operations of the count mapping at signal 0. -/
theorem count_at_0 :
    (JSNum.finite 300).add (((JSNum.finite 3796).mul (.finite 0)).div (.finite 100))
      = .finite 300 := by
  have hp : (JSNum.finite 3796).mul (.finite 0) = .finite 0 :=
    round64_of_eq_zero _ (by norm_num)
  have hq : (JSNum.finite 0).div (.finite 100) = .finite 0 :=
    (div_finite _ _ (by norm_num)).trans
      (round64_of_eq_zero _ (by norm_num))
  have hr : (JSNum.finite 300).add (.finite 0) = .finite 300 :=
    round64_eval _ _ 8 5277655813324800 (by norm_num) (by norm_num) (by norm_num)
      (by norm_num) (by norm_num) (by norm_num) (by norm_num)
  rw [hp, hq, hr]

/-- The three rounded operations of the count mapping at signal 25. -/
theorem count_at_25 :
    (JSNum.finite 300).add (((JSNum.finite 3796).mul (.finite 25)).div (.finite 100))
      = .finite 1249 := by
  have hp : (JSNum.finite 3796).mul (.finite 25) = .finite 94900 :=
    round64_eval _ _ 16 6521478342246400 (by norm_num) (by norm_num) (by norm_num)
      (by norm_num) (by norm_num) (by norm_num) (by norm_num)
  have hq : (JSNum.finite 94900).div (.finite 100) = .finite 949 :=
    (div_finite _ _ (by norm_num)).trans
      (round64_eval _ _ 9 8347492278075392 (by norm_num) (by norm_num) (by norm_num)
      (by norm_num) (by norm_num) (by norm_num) (by norm_num))
  have hr : (JSNum.finite 300).add (.finite 949) = .finite 1249 :=
    round64_eval _ _ 10 5493160092368896 (by norm_num) (by norm_num) (by norm_num)
      (by norm_num) (by norm_num) (by norm_num) (by norm_num)
  rw [hp, hq, hr]

/-- The three rounded operations of the alignment mapping at signal 50. -/
theorem alignment_at_50 :
    (JSNum.finite 82).add (((JSNum.finite (-5723089963969413 / 70368744177664)).mul (.finite 50)).div (.finite 100))
      = .finite (5817384081167483 / 140737488355328) := by
  have hp : (JSNum.finite (-5723089963969413 / 70368744177664)).mul (.finite 50) = .finite (-8133 / 2) :=
    round64_eval _ _ 11 (-8942328068702208) (by norm_num) (by norm_num) (by norm_num)
      (by norm_num) (by norm_num) (by norm_num) (by norm_num)
  have hq : (JSNum.finite (-8133 / 2)).div (.finite 100) = .finite (-5723089963969413 / 140737488355328) :=
    (div_finite _ _ (by norm_num)).trans
      (round64_eval _ _ 5 (-5723089963969413) (by norm_num) (by norm_num) (by norm_num)
      (by norm_num) (by norm_num) (by norm_num) (by norm_num))
  have hr : (JSNum.finite 82).add (.finite (-5723089963969413 / 140737488355328)) = .finite (5817384081167483 / 140737488355328) :=
    round64_eval _ _ 5 5817384081167483 (by norm_num) (by norm_num) (by norm_num)
      (by norm_num) (by norm_num) (by norm_num) (by norm_num)
  rw [hp, hq, hr]

/-- The three rounded operations of the cohesion mapping at signal 50. -/
theorem cohesion_at_50 :
    (JSNum.finite (2562829662950523 / 70368744177664)).add (((JSNum.finite (36327864181719 / 8796093022208)).mul (.finite 50)).div (.finite 100))
      = .finite (2708141119677399 / 70368744177664) := by
  have hp : (JSNum.finite (36327864181719 / 8796093022208)).mul (.finite 50) = .finite (908196604542975 / 4398046511104) :=
    round64_eval _ _ 7 7265572836343800 (by norm_num) (by norm_num) (by norm_num)
      (by norm_num) (by norm_num) (by norm_num) (by norm_num)
  have hq : (JSNum.finite (908196604542975 / 4398046511104)).div (.finite 100) = .finite (36327864181719 / 17592186044416) :=
    (div_finite _ _ (by norm_num)).trans
      (round64_eval _ _ 1 4649966615260032 (by norm_num) (by norm_num) (by norm_num)
      (by norm_num) (by norm_num) (by norm_num) (by norm_num))
  have hr : (JSNum.finite (2562829662950523 / 70368744177664)).add (.finite (36327864181719 / 17592186044416)) = .finite (2708141119677399 / 70368744177664) :=
    round64_eval _ _ 5 5416282239354798 (by norm_num) (by norm_num) (by norm_num)
      (by norm_num) (by norm_num) (by norm_num) (by norm_num)
  rw [hp, hq, hr]

/-- The three rounded operations of the count mapping at signal 50. -/
theorem count_at_50 :
    (JSNum.finite 300).add (((JSNum.finite 3796).mul (.finite 50)).div (.finite 100))
      = .finite 2198 := by
  have hp : (JSNum.finite 3796).mul (.finite 50) = .finite 189800 :=
    round64_eval _ _ 17 6521478342246400 (by norm_num) (by norm_num) (by norm_num)
      (by norm_num) (by norm_num) (by norm_num) (by norm_num)
  have hq : (JSNum.finite 189800).div (.finite 100) = .finite 1898 :=
    (div_finite _ _ (by norm_num)).trans
      (round64_eval _ _ 10 8347492278075392 (by norm_num) (by norm_num) (by norm_num)
      (by norm_num) (by norm_num) (by norm_num) (by norm_num))
  have hr : (JSNum.finite 300).add (.finite 1898) = .finite 2198 :=
    round64_eval _ _ 11 4833453115703296 (by norm_num) (by norm_num) (by norm_num)
      (by norm_num) (by norm_num) (by norm_num) (by norm_num)
  rw [hp, hq, hr]

/-- The three rounded operations of the alignment mapping at signal 100. -/
theorem alignment_at_100 :
    (JSNum.finite 82).add (((JSNum.finite (-5723089963969413 / 70368744177664)).mul (.finite 100)).div (.finite 100))
      = .finite (47147058599035 / 70368744177664) := by
  have hp : (JSNum.finite (-5723089963969413 / 70368744177664)).mul (.finite 100) = .finite (-8133) :=
    round64_eval _ _ 12 (-8942328068702208) (by norm_num) (by norm_num) (by norm_num)
      (by norm_num) (by norm_num) (by norm_num) (by norm_num)
  have hq : (JSNum.finite (-8133)).div (.finite 100) = .finite (-5723089963969413 / 70368744177664) :=
    (div_finite _ _ (by norm_num)).trans
      (round64_eval _ _ 6 (-5723089963969413) (by norm_num) (by norm_num) (by norm_num)
      (by norm_num) (by norm_num) (by norm_num) (by norm_num))
  have hr : (JSNum.finite 82).add (.finite (-5723089963969413 / 70368744177664)) = .finite (47147058599035 / 70368744177664) :=
    round64_eval _ _ (-1) 6034823500676480 (by norm_num) (by norm_num) (by norm_num)
      (by norm_num) (by norm_num) (by norm_num) (by norm_num)
  rw [hp, hq, hr]

/-- The three rounded operations of the cohesion mapping at signal 100. -/
theorem cohesion_at_100 :
    (JSNum.finite (2562829662950523 / 70368744177664)).add (((JSNum.finite (36327864181719 / 8796093022208)).mul (.finite 100)).div (.finite 100))
      = .finite (2853452576404275 / 70368744177664) := by
  have hp : (JSNum.finite (36327864181719 / 8796093022208)).mul (.finite 100) = .finite (908196604542975 / 2199023255552) :=
    round64_eval _ _ 8 7265572836343800 (by norm_num) (by norm_num) (by norm_num)
      (by norm_num) (by norm_num) (by norm_num) (by norm_num)
  have hq : (JSNum.finite (908196604542975 / 2199023255552)).div (.finite 100) = .finite (36327864181719 / 8796093022208) :=
    (div_finite _ _ (by norm_num)).trans
      (round64_eval _ _ 2 4649966615260032 (by norm_num) (by norm_num) (by norm_num)
      (by norm_num) (by norm_num) (by norm_num) (by norm_num))
  have hr : (JSNum.finite (2562829662950523 / 70368744177664)).add (.finite (36327864181719 / 8796093022208)) = .finite (2853452576404275 / 70368744177664) :=
    round64_eval _ _ 5 5706905152808550 (by norm_num) (by norm_num) (by norm_num)
      (by norm_num) (by norm_num) (by norm_num) (by norm_num)
  rw [hp, hq, hr]

/-- The three rounded operations of the count mapping at signal 100. -/
theorem count_at_100 :
    (JSNum.finite 300).add (((JSNum.finite 3796).mul (.finite 100)).div (.finite 100))
      = .finite 4096 := by
  have hp : (JSNum.finite 3796).mul (.finite 100) = .finite 379600 :=
    round64_eval _ _ 18 6521478342246400 (by norm_num) (by norm_num) (by norm_num)
      (by norm_num) (by norm_num) (by norm_num) (by norm_num)
  have hq : (JSNum.finite 379600).div (.finite 100) = .finite 3796 :=
    (div_finite _ _ (by norm_num)).trans
      (round64_eval _ _ 11 8347492278075392 (by norm_num) (by norm_num) (by norm_num)
      (by norm_num) (by norm_num) (by norm_num) (by norm_num))
  have hr : (JSNum.finite 300).add (.finite 3796) = .finite 4096 :=
    round64_eval _ _ 12 4503599627370496 (by norm_num) (by norm_num) (by norm_num)
      (by norm_num) (by norm_num) (by norm_num) (by norm_num)
  rw [hp, hq, hr]

/-- The three rounded operations of the alignment mapping at signal 200. -/
theorem alignment_at_200 :
    (JSNum.finite 82).add (((JSNum.finite (-5723089963969413 / 70368744177664)).mul (.finite 200)).div (.finite 100))
      = .finite (-2837971452685189 / 35184372088832) := by
  have hp : (JSNum.finite (-5723089963969413 / 70368744177664)).mul (.finite 200) = .finite (-16266) :=
    round64_eval _ _ 13 (-8942328068702208) (by norm_num) (by norm_num) (by norm_num)
      (by norm_num) (by norm_num) (by norm_num) (by norm_num)
  have hq : (JSNum.finite (-16266)).div (.finite 100) = .finite (-5723089963969413 / 35184372088832) :=
    (div_finite _ _ (by norm_num)).trans
      (round64_eval _ _ 7 (-5723089963969413) (by norm_num) (by norm_num) (by norm_num)
      (by norm_num) (by norm_num) (by norm_num) (by norm_num))
  have hr : (JSNum.finite 82).add (.finite (-5723089963969413 / 35184372088832)) = .finite (-2837971452685189 / 35184372088832) :=
    round64_eval _ _ 6 (-5675942905370378) (by norm_num) (by norm_num) (by norm_num)
      (by norm_num) (by norm_num) (by norm_num) (by norm_num)
  rw [hp, hq, hr]

/-- The three rounded operations of the cohesion mapping at signal 200. -/
theorem cohesion_at_200 :
    (JSNum.finite (2562829662950523 / 70368744177664)).add (((JSNum.finite (36327864181719 / 8796093022208)).mul (.finite 200)).div (.finite 100))
      = .finite (3144075489858027 / 70368744177664) := by
  have hp : (JSNum.finite (36327864181719 / 8796093022208)).mul (.finite 200) = .finite (908196604542975 / 1099511627776) :=
    round64_eval _ _ 9 7265572836343800 (by norm_num) (by norm_num) (by norm_num)
      (by norm_num) (by norm_num) (by norm_num) (by norm_num)
  have hq : (JSNum.finite (908196604542975 / 1099511627776)).div (.finite 100) = .finite (36327864181719 / 4398046511104) :=
    (div_finite _ _ (by norm_num)).trans
      (round64_eval _ _ 3 4649966615260032 (by norm_num) (by norm_num) (by norm_num)
      (by norm_num) (by norm_num) (by norm_num) (by norm_num))
  have hr : (JSNum.finite (2562829662950523 / 70368744177664)).add (.finite (36327864181719 / 4398046511104)) = .finite (3144075489858027 / 70368744177664) :=
    round64_eval _ _ 5 6288150979716054 (by norm_num) (by norm_num) (by norm_num)
      (by norm_num) (by norm_num) (by norm_num) (by norm_num)
  rw [hp, hq, hr]

/-- The three rounded operations of the count mapping at signal 200. -/
theorem count_at_200 :
    (JSNum.finite 300).add (((JSNum.finite 3796).mul (.finite 200)).div (.finite 100))
      = .finite 7892 := by
  have hp : (JSNum.finite 3796).mul (.finite 200) = .finite 759200 :=
    round64_eval _ _ 19 6521478342246400 (by norm_num) (by norm_num) (by norm_num)
      (by norm_num) (by norm_num) (by norm_num) (by norm_num)
  have hq : (JSNum.finite 759200).div (.finite 100) = .finite 7592 :=
    (div_finite _ _ (by norm_num)).trans
      (round64_eval _ _ 12 8347492278075392 (by norm_num) (by norm_num) (by norm_num)
      (by norm_num) (by norm_num) (by norm_num) (by norm_num))
  have hr : (JSNum.finite 300).add (.finite 7592) = .finite 7892 :=
    round64_eval _ _ 12 8677345766408192 (by norm_num) (by norm_num) (by norm_num)
      (by norm_num) (by norm_num) (by norm_num) (by norm_num)
  rw [hp, hq, hr]

/-- The signal 25 is a binary64 value. -/
theorem double_25 :
    round64 25 = .finite 25 :=
  round64_eval _ _ 4 7036874417766400 (by norm_num) (by norm_num) (by norm_num)
      (by norm_num) (by norm_num) (by norm_num) (by norm_num)

/-- The signal 50 is a binary64 value. -/
theorem double_50 :
    round64 50 = .finite 50 :=
  round64_eval _ _ 5 7036874417766400 (by norm_num) (by norm_num) (by norm_num)
      (by norm_num) (by norm_num) (by norm_num) (by norm_num)

/-- The signal 200 is a binary64 value. -/
theorem double_200 :
    round64 200 = .finite 200 :=
  round64_eval _ _ 7 7036874417766400 (by norm_num) (by norm_num) (by norm_num)
      (by norm_num) (by norm_num) (by norm_num) (by norm_num)

/-- The draw range of six indices per bird at the count 7892. -/
theorem drawRange_six_7892 :
    (JSNum.finite ((6 : ℕ) : ℚ)).mul (.finite 7892) = .finite 47352 :=
  (congrArg round64 (by norm_num : ((6 : ℕ) : ℚ) * 7892 = 47352)).trans
    (round64_eval _ _ 15 6508009324806144 (by norm_num) (by norm_num) (by norm_num) (by norm_num) (by norm_num) (by norm_num) (by norm_num))

/-! ## The parameter mapping for a binary64 signal -/

/-- The field `effectController` after a frame is `updateParameters` of the signal. -/
theorem render_effectController (now : ℚ) (fetch : FetchOutcome) (st : State) :
    (render now fetch st).effectController =
      updateParameters (fetchOverallAverage fetch) st.effectController := rfl

/-- The draw range after a frame is `indicesPerBird * effectController.count`. -/
theorem render_drawRangeCount (now : ℚ) (fetch : FetchOutcome) (st : State) :
    (render now fetch st).drawRangeCount
      = (JSNum.finite st.indicesPerBird).mul (render now fetch st).effectController.count := rfl

/-- The divisor `a2 - a1` of the three calls is 100. -/
theorem sub_hundred_zero : (lit 100).sub (lit 0) = .finite 100 := by
  rw [lit_hundred, lit_zero]
  exact round64_eval _ _ 6 7036874417766400 (by norm_num) (by norm_num) (by norm_num)
    (by norm_num) (by norm_num) (by norm_num) (by norm_num)

/-- A signal that is a binary64 value makes `updateParameters` write, for each of
the three parameters, the binary64 value of `calm + (stressed - calm) * s / 100`:
the difference, the product, the quotient and the sum are each rounded. -/
theorem updateParameters_double (s : ℚ) (ec : EffectController)
    (hs : round64 s = .finite s) :
    updateParameters (.number (.finite s)) ec =
      { ec with
        alignment := (lit 82).add ((((lit 0.67).sub (lit 82)).mul (.finite s)).div (.finite 100))
        cohesion :=
          (lit 36.42).add ((((lit 40.55).sub (lit 36.42)).mul (.finite s)).div (.finite 100))
        count := (lit 300).add ((((lit 4096).sub (lit 300)).mul (.finite s)).div (.finite 100)) } := by
  have h1 : (JSNum.finite s).sub (lit 0) = .finite s := by
    rw [lit_zero]
    show round64 (s - 0) = _
    rw [sub_zero]
    exact hs
  simp only [updateParameters, mapLinear, JSVal.toNumber, calmValues, stressValues, h1,
    sub_hundred_zero]
  rw [mul_comm_num (.finite s) ((lit 0.67).sub (lit 82)),
    mul_comm_num (.finite s) ((lit 40.55).sub (lit 36.42)),
    mul_comm_num (.finite s) ((lit 4096).sub (lit 300))]

/-- The same with the literals and the differences evaluated. -/
theorem updateParameters_double_eval (s : ℚ) (ec : EffectController)
    (hs : round64 s = .finite s) :
    updateParameters (.number (.finite s)) ec =
      { ec with
        alignment := (JSNum.finite 82).add
          (((JSNum.finite (-5723089963969413 / 70368744177664)).mul (.finite s)).div
            (.finite 100))
        cohesion := (JSNum.finite (2562829662950523 / 70368744177664)).add
          (((JSNum.finite (36327864181719 / 8796093022208)).mul (.finite s)).div
            (.finite 100))
        count := (JSNum.finite 300).add
          (((JSNum.finite 3796).mul (.finite s)).div (.finite 100)) } := by
  rw [updateParameters_double s ec hs, sub_presets_alignment, sub_presets_cohesion,
    sub_presets_count, lit_calm_alignment, lit_calm_cohesion, lit_calm_count]

/-- For a signal in `[0, 100]` nothing overflows: the mapped value is the finite
number `interp b1 c s`, within `0.975 * 10^-12` of the exact `b1 + c * s / 100`. -/
theorem interp_spec (b1 c s : ℚ) (hs0 : 0 ≤ s) (hs1 : s ≤ 100) (hc : |c| ≤ 4000)
    (hb : |b1| ≤ 400) :
    (JSNum.finite b1).add (((JSNum.finite c).mul (.finite s)).div (.finite 100))
      = .finite (interp b1 c s) ∧
    |interp b1 c s - (b1 + c * s / 100)| ≤ 975 / 10 ^ 15 := by
  have hsc : |s * c| ≤ 400000 := by
    rw [abs_mul, abs_of_nonneg hs0]
    have : s * |c| ≤ 100 * 4000 := mul_le_mul hs1 hc (abs_nonneg c) (by norm_num)
    linarith
  have hp := roundToGrid_err_le (s * c) 18 (by norm_num) (lt_of_le_of_lt hsc (by norm_num))
  have hpe : (2 : ℚ) ^ ((18 : ℤ) - 53) = 1 / 34359738368 := by norm_num
  rw [hpe] at hp
  obtain ⟨hp1, hp2⟩ := abs_le.mp hp
  obtain ⟨hsc1, hsc2⟩ := abs_le.mp hsc
  have hpa : |roundToGrid (s * c) / 100| ≤ 4001 := by
    rw [abs_le]; constructor <;> linarith
  have hq := roundToGrid_err_le (roundToGrid (s * c) / 100) 11 (by norm_num)
    (lt_of_le_of_lt hpa (by norm_num))
  have hqe : (2 : ℚ) ^ ((11 : ℤ) - 53) = 1 / 4398046511104 := by norm_num
  rw [hqe] at hq
  obtain ⟨hq1, hq2⟩ := abs_le.mp hq
  obtain ⟨hpa1, hpa2⟩ := abs_le.mp hpa
  obtain ⟨hb1, hb2⟩ := abs_le.mp hb
  have hra : |b1 + roundToGrid (roundToGrid (s * c) / 100)| ≤ 4402 := by
    rw [abs_le]; constructor <;> linarith
  have hr := roundToGrid_err_le (b1 + roundToGrid (roundToGrid (s * c) / 100)) 12 (by norm_num)
    (lt_of_le_of_lt hra (by norm_num))
  have hre : (2 : ℚ) ^ ((12 : ℤ) - 53) = 1 / 2199023255552 := by norm_num
  rw [hre] at hr
  obtain ⟨hr1, hr2⟩ := abs_le.mp hr
  have hbig : (4402 : ℚ) ≤ 2 ^ 1000 := by norm_num
  have hbig2 : (400000 : ℚ) ≤ 2 ^ 1000 := by norm_num
  constructor
  · have e1 : (JSNum.finite c).mul (.finite s) = .finite (roundToGrid (s * c)) := by
      show round64 (c * s) = _
      rw [mul_comm c s]
      exact round64_finite _ (le_trans hsc hbig2)
    have e2 : (JSNum.finite (roundToGrid (s * c))).div (.finite 100)
        = .finite (roundToGrid (roundToGrid (s * c) / 100)) := by
      rw [div_finite _ _ (by norm_num)]
      exact round64_finite _ (le_trans hpa (by linarith))
    have e3 : (JSNum.finite b1).add (.finite (roundToGrid (roundToGrid (s * c) / 100)))
        = .finite (roundToGrid (b1 + roundToGrid (roundToGrid (s * c) / 100))) :=
      round64_finite _ (le_trans hra hbig)
    rw [e1, e2, e3]
    rfl
  · unfold interp
    rw [abs_le]
    constructor <;> linarith

/-- The mapped value grows with the signal when `stressed - calm` is not negative. -/
theorem interp_mono (b1 c : ℚ) (hc : 0 ≤ c) {s t : ℚ} (h : s ≤ t) :
    interp b1 c s ≤ interp b1 c t := by
  unfold interp
  apply roundToGrid_mono
  have h1 : roundToGrid (s * c) ≤ roundToGrid (t * c) :=
    roundToGrid_mono (mul_le_mul_of_nonneg_right h hc)
  have h2 : roundToGrid (roundToGrid (s * c) / 100) ≤ roundToGrid (roundToGrid (t * c) / 100) :=
    roundToGrid_mono (div_le_div_of_nonneg_right h1 (by norm_num))
  linarith

/-- The mapped value falls with the signal when `stressed - calm` is not positive. -/
theorem interp_anti (b1 c : ℚ) (hc : c ≤ 0) {s t : ℚ} (h : s ≤ t) :
    interp b1 c t ≤ interp b1 c s := by
  unfold interp
  apply roundToGrid_mono
  have h1 : roundToGrid (t * c) ≤ roundToGrid (s * c) :=
    roundToGrid_mono (mul_le_mul_of_nonpos_right h hc)
  have h2 : roundToGrid (roundToGrid (t * c) / 100) ≤ roundToGrid (roundToGrid (s * c) / 100) :=
    roundToGrid_mono (div_le_div_of_nonneg_right h1 (by norm_num))
  linarith

/-- The draw range for a count in `[0, 4096]` and fewer than `2 ^ 53` indices per
bird: a finite number between 0 and `indicesPerBird * 4096`. -/
theorem drawRange_bounded (n : ℕ) (v : ℚ) (hn : n < 2 ^ 53) (hv0 : 0 ≤ v) (hv1 : v ≤ 4096) :
    (JSNum.finite n).mul (.finite v) = .finite (roundToGrid (n * v)) ∧
    0 ≤ roundToGrid (n * v) ∧ roundToGrid ((n : ℚ) * v) ≤ n * 4096 := by
  have hn0 : (0 : ℚ) ≤ n := Nat.cast_nonneg n
  have hnq : (n : ℚ) < 2 ^ 53 := by exact_mod_cast hn
  have hx0 : 0 ≤ (n : ℚ) * v := mul_nonneg hn0 hv0
  have hx1 : (n : ℚ) * v ≤ n * 4096 := mul_le_mul_of_nonneg_left hv1 hn0
  have hgrid : roundToGrid ((n : ℚ) * 4096) = n * 4096 := by
    have h := roundToGrid_int_mul_zpow (n : ℤ) 12 (by
      rw [abs_of_nonneg (Int.ofNat_nonneg n)]; exact_mod_cast hn) (by norm_num)
    have e : ((n : ℤ) : ℚ) * 2 ^ (12 : ℤ) = (n : ℚ) * 4096 := by norm_num
    rw [e] at h
    exact h
  have hup : roundToGrid ((n : ℚ) * v) ≤ n * 4096 := by
    have := roundToGrid_mono hx1
    rw [hgrid] at this
    exact this
  refine ⟨?_, roundToGrid_nonneg hx0, hup⟩
  show round64 ((n : ℚ) * v) = _
  apply round64_finite
  rw [abs_of_nonneg hx0]
  have : (n : ℚ) * 4096 ≤ 2 ^ 53 * 4096 := by linarith
  have hbig : (2 : ℚ) ^ 53 * 4096 ≤ 2 ^ 1000 := by norm_num
  linarith

/-- The values of `interp` at the two ends of the signal range, and the sign of
the rounded differences, for the three parameters. -/
theorem interp_endpoints :
    interp 82 (-5723089963969413 / 70368744177664) 0 = 82 ∧
    interp 82 (-5723089963969413 / 70368744177664) 100 = 47147058599035 / 70368744177664 ∧
    interp (2562829662950523 / 70368744177664) (36327864181719 / 8796093022208) 0
      = 2562829662950523 / 70368744177664 ∧
    interp (2562829662950523 / 70368744177664) (36327864181719 / 8796093022208) 100
      = 2853452576404275 / 70368744177664 ∧
    interp 300 3796 0 = 300 ∧
    interp 300 3796 100 = 4096 := by
  have key : ∀ b1 c s r : ℚ, 0 ≤ s → s ≤ 100 → |c| ≤ 4000 → |b1| ≤ 400 →
      (JSNum.finite b1).add (((JSNum.finite c).mul (.finite s)).div (.finite 100)) = .finite r →
      interp b1 c s = r := by
    intro b1 c s r h0 h1 hc hb h
    rw [(interp_spec b1 c s h0 h1 hc hb).1] at h
    exact JSNum.finite.inj h
  refine ⟨key _ _ _ _ (by norm_num) (by norm_num) ?_ ?_ alignment_at_0,
    key _ _ _ _ (by norm_num) (by norm_num) ?_ ?_ alignment_at_100,
    key _ _ _ _ (by norm_num) (by norm_num) ?_ ?_ cohesion_at_0,
    key _ _ _ _ (by norm_num) (by norm_num) ?_ ?_ cohesion_at_100,
    key _ _ _ _ (by norm_num) (by norm_num) ?_ ?_ count_at_0,
    key _ _ _ _ (by norm_num) (by norm_num) ?_ ?_ count_at_100⟩ <;>
  · rw [abs_le]; constructor <;> norm_num

/-- For a binary64 signal in `[0, 100]` the three parameters are finite numbers:
within `10^-12` of the exact `calm + (stressed - calm) * s / 100`, and between the
values at the two ends of the range. -/
theorem updateParameters_in_range (s : ℚ) (ec : EffectController)
    (hs : round64 s = .finite s) (h0 : 0 ≤ s) (h100 : s ≤ 100) :
    ∃ va vc vn : ℚ,
      (updateParameters (.number (.finite s)) ec).alignment = .finite va ∧
      (updateParameters (.number (.finite s)) ec).cohesion = .finite vc ∧
      (updateParameters (.number (.finite s)) ec).count = .finite vn ∧
      (|va - (82 + (0.67 - 82) * s / 100)| ≤ 1 / 10 ^ 12 ∧
        |vc - (36.42 + (40.55 - 36.42) * s / 100)| ≤ 1 / 10 ^ 12 ∧
        |vn - (300 + (4096 - 300) * s / 100)| ≤ 1 / 10 ^ 12) ∧
      (47147058599035 / 70368744177664 ≤ va ∧ va ≤ 82) ∧
      (2562829662950523 / 70368744177664 ≤ vc ∧ vc ≤ 2853452576404275 / 70368744177664) ∧
      (300 ≤ vn ∧ vn ≤ 4096) := by
  obtain ⟨ea0, ea1, ec0, ec1, en0, en1⟩ := interp_endpoints
  have ha := interp_spec 82 (-5723089963969413 / 70368744177664) s h0 h100
    (by rw [abs_le]; constructor <;> norm_num) (by rw [abs_le]; constructor <;> norm_num)
  have hc := interp_spec (2562829662950523 / 70368744177664) (36327864181719 / 8796093022208) s
    h0 h100 (by rw [abs_le]; constructor <;> norm_num) (by rw [abs_le]; constructor <;> norm_num)
  have hn := interp_spec 300 3796 s h0 h100
    (by rw [abs_le]; constructor <;> norm_num) (by rw [abs_le]; constructor <;> norm_num)
  refine ⟨interp 82 (-5723089963969413 / 70368744177664) s,
    interp (2562829662950523 / 70368744177664) (36327864181719 / 8796093022208) s,
    interp 300 3796 s, ?_, ?_, ?_, ⟨?_, ?_, ?_⟩, ⟨?_, ?_⟩, ⟨?_, ?_⟩, ⟨?_, ?_⟩⟩
  · rw [updateParameters_double_eval s ec hs]; exact ha.1
  · rw [updateParameters_double_eval s ec hs]; exact hc.1
  · rw [updateParameters_double_eval s ec hs]; exact hn.1
  · obtain ⟨h1, h2⟩ := abs_le.mp ha.2
    rw [abs_le]; constructor <;> norm_num at h1 h2 ⊢ <;> linarith
  · obtain ⟨h1, h2⟩ := abs_le.mp hc.2
    rw [abs_le]; constructor <;> norm_num at h1 h2 ⊢ <;> linarith
  · obtain ⟨h1, h2⟩ := abs_le.mp hn.2
    rw [abs_le]; constructor <;> norm_num at h1 h2 ⊢ <;> linarith
  · exact le_of_eq_of_le ea1.symm (interp_anti 82 (-5723089963969413 / 70368744177664) (by norm_num) h100)
  · exact le_of_le_of_eq (interp_anti 82 (-5723089963969413 / 70368744177664) (by norm_num) h0) ea0
  · exact le_of_eq_of_le ec0.symm (interp_mono (2562829662950523 / 70368744177664) (36327864181719 / 8796093022208) (by norm_num) h0)
  · exact le_of_le_of_eq (interp_mono (2562829662950523 / 70368744177664) (36327864181719 / 8796093022208) (by norm_num) h100) ec1
  · exact le_of_eq_of_le en0.symm (interp_mono 300 3796 (by norm_num) h0)
  · exact le_of_le_of_eq (interp_mono 300 3796 (by norm_num) h100) en1

/-- The signal `2 ^ 1023` is a binary64 value. -/
theorem double_two_pow_1023 : round64 (2 ^ 1023) = .finite (2 ^ 1023) :=
  round64_eval _ _ 1023 (2 ^ 52) (by norm_num) (by norm_num) (by norm_num) (by norm_num)
    (by norm_num) (by norm_num) (by norm_num)

/-- At the finite signal `2 ^ 1023` the three products overflow: the alignment
becomes `-Infinity`, the cohesion and the count `Infinity`. -/
theorem updateParameters_overflow (ec : EffectController) :
    (updateParameters (.number (.finite (2 ^ 1023))) ec).alignment = .negInf ∧
    (updateParameters (.number (.finite (2 ^ 1023))) ec).cohesion = .posInf ∧
    (updateParameters (.number (.finite (2 ^ 1023))) ec).count = .posInf := by
  rw [updateParameters_double_eval _ ec double_two_pow_1023]
  have ha : (JSNum.finite (-5723089963969413 / 70368744177664)).mul (.finite (2 ^ 1023))
      = .negInf := round64_of_le _ (by norm_num)
  have hc : (JSNum.finite (36327864181719 / 8796093022208)).mul (.finite (2 ^ 1023))
      = .posInf := round64_of_ge _ (by norm_num)
  have hn : (JSNum.finite 3796).mul (.finite (2 ^ 1023)) = .posInf :=
    round64_of_ge _ (by norm_num)
  have hdn : JSNum.negInf.div (.finite 100) = .negInf := by
    simp only [JSNum.div]; norm_num
  have hdp : JSNum.posInf.div (.finite 100) = .posInf := by
    simp only [JSNum.div]; norm_num
  simp only [ha, hc, hn, hdn, hdp]
  exact ⟨rfl, rfl, rfl⟩

/-! ## The frame step: parameter mapping, signal failure, frame clock -/

/-- Counterexample to C1 as stated: at signal 100 the alignment that `render`
writes is not the number `0.67` but the binary64 value 15 units in the last place
above it (0.6700000000000017), the rounding residue of `82 + 100 * (0.67 - 82) / 100`. -/
theorem render_signal_100_alignment_rounded :
    (render 16 (stressReply 100) (initialState 0 6)).effectController.alignment
      = .finite (47147058599035 / 70368744177664) ∧
    lit 0.67 = .finite (6034823500676465 / 9007199254740992) ∧
    (render 16 (stressReply 100) (initialState 0 6)).effectController.alignment ≠ lit 0.67 ∧
    (47147058599035 / 70368744177664 : ℚ) - 6034823500676465 / 9007199254740992
      = 15 / 2 ^ 53 := by
  have h : (render 16 (stressReply 100) (initialState 0 6)).effectController.alignment
      = .finite (47147058599035 / 70368744177664) := by
    have e : (render 16 (stressReply 100) (initialState 0 6)).effectController
        = updateParameters (.number (.finite 100)) effectController := rfl
    rw [e, updateParameters_double_eval 100 _ lit_hundred]
    exact alignment_at_100
  refine ⟨h, lit_stress_alignment, ?_, by norm_num⟩
  rw [h, lit_stress_alignment]
  intro hcon
  have := JSNum.finite.inj hcon
  norm_num at this

/-- Claim C1, amended. In `render`, a binary64 signal `s` with `0 ≤ s ≤ 100` sets
alignment, cohesion and count to the binary64 value of
`calm + (stressed - calm) * s / 100` (every operation rounded to nearest), a finite
number within `10^-12` of the exact value; at `s = 0` the result is exactly
`(82, 36.42, 300)`; at `s = 100` the cohesion is exactly `40.55`, the count exactly
`4096`, and the alignment is 0.6700000000000017, not `0.67`. -/
theorem render_maps_signal_linearly (now : ℚ) (fetch : FetchOutcome) (st : State) (s : ℚ)
    (hfetch : fetchOverallAverage fetch = .number (.finite s))
    (hs : round64 s = .finite s) (h0 : 0 ≤ s) (h100 : s ≤ 100) :
    ((render now fetch st).effectController.alignment
        = (lit 82).add ((((lit 0.67).sub (lit 82)).mul (.finite s)).div (lit 100)) ∧
      (render now fetch st).effectController.cohesion
        = (lit 36.42).add ((((lit 40.55).sub (lit 36.42)).mul (.finite s)).div (lit 100)) ∧
      (render now fetch st).effectController.count
        = (lit 300).add ((((lit 4096).sub (lit 300)).mul (.finite s)).div (lit 100))) ∧
    (∃ va vc vn : ℚ,
      (render now fetch st).effectController.alignment = .finite va ∧
      (render now fetch st).effectController.cohesion = .finite vc ∧
      (render now fetch st).effectController.count = .finite vn ∧
      |va - (82 + (0.67 - 82) * s / 100)| ≤ 1 / 10 ^ 12 ∧
      |vc - (36.42 + (40.55 - 36.42) * s / 100)| ≤ 1 / 10 ^ 12 ∧
      |vn - (300 + (4096 - 300) * s / 100)| ≤ 1 / 10 ^ 12) ∧
    (s = 0 →
      (render now fetch st).effectController.alignment = lit 82 ∧
      (render now fetch st).effectController.cohesion = lit 36.42 ∧
      (render now fetch st).effectController.count = lit 300) ∧
    (s = 100 →
      (render now fetch st).effectController.cohesion = lit 40.55 ∧
      (render now fetch st).effectController.count = lit 4096 ∧
      (render now fetch st).effectController.alignment
        = .finite (47147058599035 / 70368744177664) ∧
      (render now fetch st).effectController.alignment ≠ lit 0.67) := by
  rw [render_effectController, hfetch]
  refine ⟨?_, ?_, ?_, ?_⟩
  · rw [updateParameters_double s _ hs, lit_hundred]
    exact ⟨rfl, rfl, rfl⟩
  · obtain ⟨va, vc, vn, h1, h2, h3, hacc, _⟩ :=
      updateParameters_in_range s st.effectController hs h0 h100
    exact ⟨va, vc, vn, h1, h2, h3, hacc.1, hacc.2.1, hacc.2.2⟩
  · rintro rfl
    rw [updateParameters_double_eval 0 _ hs, lit_calm_alignment, lit_calm_cohesion,
      lit_calm_count]
    exact ⟨alignment_at_0, cohesion_at_0, count_at_0⟩
  · rintro rfl
    rw [updateParameters_double_eval 100 _ hs, lit_stress_cohesion, lit_stress_count,
      lit_stress_alignment]
    refine ⟨cohesion_at_100, count_at_100, alignment_at_100, ?_⟩
    show (JSNum.finite 82).add _ ≠ _
    rw [alignment_at_100]
    intro hcon
    have := JSNum.finite.inj hcon
    norm_num at this

/-- Witness of the amended C1: the frames at signal 50, 0 and 100 from the
initial state. -/
theorem render_maps_signal_linearly_witness :
    (∃ va vc vn : ℚ,
      (render 16 (stressReply 50) (initialState 0 6)).effectController.alignment = .finite va ∧
      (render 16 (stressReply 50) (initialState 0 6)).effectController.cohesion = .finite vc ∧
      (render 16 (stressReply 50) (initialState 0 6)).effectController.count = .finite vn ∧
      |va - (82 + (0.67 - 82) * 50 / 100)| ≤ 1 / 10 ^ 12 ∧
      |vc - (36.42 + (40.55 - 36.42) * 50 / 100)| ≤ 1 / 10 ^ 12 ∧
      |vn - (300 + (4096 - 300) * 50 / 100)| ≤ 1 / 10 ^ 12) ∧
      (render 16 (stressReply 0) (initialState 0 6)).effectController.count = lit 300 ∧
      (render 16 (stressReply 100) (initialState 0 6)).effectController.cohesion = lit 40.55 :=
  ⟨(render_maps_signal_linearly 16 (stressReply 50) (initialState 0 6) 50 rfl double_50
      (by norm_num) (by norm_num)).2.1,
    ((render_maps_signal_linearly 16 (stressReply 0) (initialState 0 6) 0 rfl
      (round64_of_eq_zero 0 rfl) (by norm_num) (by norm_num)).2.2.1 rfl).2.2,
    ((render_maps_signal_linearly 16 (stressReply 100) (initialState 0 6) 100 rfl lit_hundred
      (by norm_num) (by norm_num)).2.2.2 rfl).1⟩

/-- Counterexample to C2 as stated: at signal 200 the count is 7892, not the
clamped value 4096, the alignment is -80.66, below the stressed preset 0.67, and
the draw range `6 * 7892` exceeds the `6 * 4096` entries of the index buffer. -/
theorem render_signal_200_not_clamped :
    (render 16 (stressReply 200) (initialState 0 6)).effectController.count = .finite 7892 ∧
    (render 16 (stressReply 200) (initialState 0 6)).effectController.count
      ≠ .finite (300 + (4096 - 300) * max 0 (min 200 100) / 100) ∧
    (render 16 (stressReply 200) (initialState 0 6)).effectController.alignment
      = .finite (-2837971452685189 / 35184372088832) ∧
    lit 0.67 = .finite (6034823500676465 / 9007199254740992) ∧
    (-2837971452685189 / 35184372088832 : ℚ) < 6034823500676465 / 9007199254740992 ∧
    (render 16 (stressReply 200) (initialState 0 6)).drawRangeCount = .finite (6 * 7892) ∧
    ¬ ((6 * 7892 : ℚ) ≤ 6 * 4096) := by
  have e : (render 16 (stressReply 200) (initialState 0 6)).effectController
      = updateParameters (.number (.finite 200)) effectController := rfl
  have hn : (render 16 (stressReply 200) (initialState 0 6)).effectController.count
      = .finite 7892 := by
    rw [e, updateParameters_double_eval 200 _ double_200]
    exact count_at_200
  have ha : (render 16 (stressReply 200) (initialState 0 6)).effectController.alignment
      = .finite (-2837971452685189 / 35184372088832) := by
    rw [e, updateParameters_double_eval 200 _ double_200]
    exact alignment_at_200
  have hd : (render 16 (stressReply 200) (initialState 0 6)).drawRangeCount
      = .finite (6 * 7892) := by
    rw [render_drawRangeCount, hn]
    show (JSNum.finite ((6 : ℕ) : ℚ)).mul (.finite 7892) = _
    rw [drawRange_six_7892]
    norm_num
  refine ⟨hn, ?_, ha, lit_stress_alignment, by norm_num, hd, by norm_num⟩
  rw [hn]
  intro hcon
  have := JSNum.finite.inj hcon
  norm_num at this

/-- Claim C2, amended. For every binary64 signal `s`, `render` sets alignment,
cohesion and count to the binary64 value of `calm + (stressed - calm) * s / 100`
with no clamping, and the draw range to `indicesPerBird * count`.  When
`0 ≤ s ≤ 100` each parameter is a finite number between its two presets and the
draw range (for fewer than `2 ^ 53` indices per bird) is at most
`indicesPerBird * 4096`.  A large signal overflows: at `s = 2 ^ 1023` the alignment
is `-Infinity` and the cohesion, the count and the draw range are `Infinity`. -/
theorem render_maps_signal_unclamped (now : ℚ) (fetch : FetchOutcome) (st : State) (s : ℚ)
    (hfetch : fetchOverallAverage fetch = .number (.finite s))
    (hs : round64 s = .finite s) :
    ((render now fetch st).effectController.alignment
        = (lit 82).add ((((lit 0.67).sub (lit 82)).mul (.finite s)).div (lit 100)) ∧
      (render now fetch st).effectController.cohesion
        = (lit 36.42).add ((((lit 40.55).sub (lit 36.42)).mul (.finite s)).div (lit 100)) ∧
      (render now fetch st).effectController.count
        = (lit 300).add ((((lit 4096).sub (lit 300)).mul (.finite s)).div (lit 100)) ∧
      (render now fetch st).drawRangeCount
        = (JSNum.finite st.indicesPerBird).mul (render now fetch st).effectController.count) ∧
    (0 ≤ s → s ≤ 100 →
      (render now fetch st).effectController.alignment.between (lit 0.67) (lit 82) ∧
      (render now fetch st).effectController.cohesion.between (lit 36.42) (lit 40.55) ∧
      (render now fetch st).effectController.count.between (lit 300) (lit 4096) ∧
      (st.indicesPerBird < 2 ^ 53 →
        (render now fetch st).drawRangeCount.between (.finite 0)
          (.finite (st.indicesPerBird * 4096)))) ∧
    ((render 16 (stressReply (2 ^ 1023)) (initialState 0 6)).effectController.alignment
        = .negInf ∧
      (render 16 (stressReply (2 ^ 1023)) (initialState 0 6)).effectController.cohesion
        = .posInf ∧
      (render 16 (stressReply (2 ^ 1023)) (initialState 0 6)).effectController.count
        = .posInf ∧
      (render 16 (stressReply (2 ^ 1023)) (initialState 0 6)).drawRangeCount = .posInf) := by
  refine ⟨?_, ?_, ?_⟩
  · rw [render_drawRangeCount, render_effectController, hfetch, updateParameters_double s _ hs,
      lit_hundred]
    exact ⟨rfl, rfl, rfl, rfl⟩
  · intro h0 h100
    rw [render_drawRangeCount, render_effectController, hfetch]
    obtain ⟨va, vc, vn, h1, h2, h3, _, hba, hbc, hbn⟩ :=
      updateParameters_in_range s st.effectController hs h0 h100
    refine ⟨⟨va, _, _, h1, lit_stress_alignment, lit_calm_alignment, ?_, hba.2⟩,
      ⟨vc, _, _, h2, lit_calm_cohesion, lit_stress_cohesion, hbc.1, hbc.2⟩,
      ⟨vn, _, _, h3, lit_calm_count, lit_stress_count, hbn.1, hbn.2⟩, ?_⟩
    · have : (6034823500676465 / 9007199254740992 : ℚ) ≤ 47147058599035 / 70368744177664 := by
        norm_num
      exact le_trans this hba.1
    · intro hn
      rw [h3]
      obtain ⟨e1, e2, e3⟩ := drawRange_bounded st.indicesPerBird vn hn (by linarith [hbn.1]) hbn.2
      exact ⟨_, _, _, e1, rfl, rfl, e2, e3⟩
  · have e : (render 16 (stressReply (2 ^ 1023)) (initialState 0 6)).effectController
        = updateParameters (.number (.finite (2 ^ 1023))) effectController := rfl
    obtain ⟨ha, hc, hn⟩ := updateParameters_overflow effectController
    refine ⟨by rw [e]; exact ha, by rw [e]; exact hc, by rw [e]; exact hn, ?_⟩
    rw [render_drawRangeCount, e, hn]
    show JSNum.infTimes true ((6 : ℕ) : ℚ) = _
    simp only [JSNum.infTimes]
    norm_num

/-- Witness of the amended C2: the frame at signal 25 from the initial state. -/
theorem render_maps_signal_unclamped_witness :
    (render 16 (stressReply 25) (initialState 0 6)).effectController.count.between
        (lit 300) (lit 4096) ∧
      (render 16 (stressReply 25) (initialState 0 6)).drawRangeCount.between (.finite 0)
        (.finite ((initialState 0 6).indicesPerBird * 4096)) :=
  ⟨((render_maps_signal_unclamped 16 (stressReply 25) (initialState 0 6) 25 rfl double_25).2.1
      (by norm_num) (by norm_num)).2.2.1,
    ((render_maps_signal_unclamped 16 (stressReply 25) (initialState 0 6) 25 rfl double_25).2.1
      (by norm_num) (by norm_num)).2.2.2 (by norm_num [initialState])⟩

/-- A signal that is `null` leaves `effectController` as it was. -/
theorem updateParameters_null (ec : EffectController) : updateParameters .null ec = ec := rfl

/-- No signal changes `separation`, `freedom` or `size`. -/
theorem updateParameters_fixed (v : JSVal) (ec : EffectController) :
    (updateParameters v ec).separation = ec.separation ∧
    (updateParameters v ec).freedom = ec.freedom ∧
    (updateParameters v ec).size = ec.size := by
  cases v <;> exact ⟨rfl, rfl, rfl⟩

/-- The parameters computed at signal 50 are the numbers 41.335, 38.485 and 2198. -/
theorem updateParameters_50 (ec : EffectController) :
    (updateParameters (.number (.finite 50)) ec).alignment = lit 41.335 ∧
    (updateParameters (.number (.finite 50)) ec).cohesion = lit 38.485 ∧
    (updateParameters (.number (.finite 50)) ec).count = .finite 2198 := by
  rw [updateParameters_double_eval 50 ec double_50, lit_alignment_50, lit_cohesion_50]
  exact ⟨alignment_at_50, cohesion_at_50, count_at_50⟩

/-- Claim C3. When the signal of a frame is `null`, `render` leaves alignment,
cohesion and count as they were; after a frame with signal 50 and then a frame with
a `null` signal they are the values computed at 50 (41.335, 38.485, 2198); and no
frame, whatever its fetch does, changes separation, freedom or size. -/
theorem render_null_signal_retains (now now2 : ℚ) (fetch50 fetchNull fetch : FetchOutcome)
    (st : State) (h50 : fetchOverallAverage fetch50 = .number (.finite 50))
    (hnull : fetchOverallAverage fetchNull = .null) :
    ((render now fetchNull st).effectController.alignment = st.effectController.alignment ∧
      (render now fetchNull st).effectController.cohesion = st.effectController.cohesion ∧
      (render now fetchNull st).effectController.count = st.effectController.count) ∧
    ((render now2 fetchNull (render now fetch50 st)).effectController.alignment
        = (render now fetch50 st).effectController.alignment ∧
      (render now2 fetchNull (render now fetch50 st)).effectController.cohesion
        = (render now fetch50 st).effectController.cohesion ∧
      (render now2 fetchNull (render now fetch50 st)).effectController.count
        = (render now fetch50 st).effectController.count ∧
      (render now2 fetchNull (render now fetch50 st)).effectController.alignment
        = lit 41.335 ∧
      (render now2 fetchNull (render now fetch50 st)).effectController.cohesion
        = lit 38.485 ∧
      (render now2 fetchNull (render now fetch50 st)).effectController.count
        = .finite 2198) ∧
    ((render now fetch st).effectController.separation = st.effectController.separation ∧
      (render now fetch st).effectController.freedom = st.effectController.freedom ∧
      (render now fetch st).effectController.size = st.effectController.size) := by
  refine ⟨?_, ?_, ?_⟩
  · rw [render_effectController, hnull, updateParameters_null]
    exact ⟨rfl, rfl, rfl⟩
  · rw [render_effectController now2, hnull, updateParameters_null, render_effectController,
      h50]
    obtain ⟨h1, h2, h3⟩ := updateParameters_50 st.effectController
    exact ⟨rfl, rfl, rfl, h1, h2, h3⟩
  · rw [render_effectController]
    exact updateParameters_fixed _ _

/-- Witness of C3: signal 50, then a network error, from the initial state. -/
theorem render_null_signal_retains_witness :
    (render 32 .networkError (render 16 (stressReply 50) (initialState 0 6))).effectController.count
        = .finite 2198 ∧
      (render 16 (stressReply 50) (initialState 0 6)).effectController.separation
        = lit 28.0 :=
  ⟨(render_null_signal_retains 16 32 (stressReply 50) .networkError (stressReply 50)
      (initialState 0 6) rfl rfl).2.1.2.2.2.2.2,
    (render_null_signal_retains 16 32 (stressReply 50) .networkError (stressReply 50)
      (initialState 0 6) rfl rfl).2.2.1⟩

/-- The failures that `fetchOverallAverage` catches: a rejected fetch, a response
that is not ok, a body that is not JSON, and the JSON value `null` all give `null`,
and the following update keeps the parameters. -/
theorem fetch_caught_failures (ok : Bool) (body : Body) (ec : EffectController) :
    fetchOverallAverage .networkError = .null ∧
    fetchOverallAverage (.response false body) = .null ∧
    fetchOverallAverage (.response ok .invalidJson) = .null ∧
    fetchOverallAverage (.response ok (.json .null)) = .null ∧
    updateParameters .null ec = ec := by
  refine ⟨rfl, rfl, ?_, ?_, rfl⟩ <;> cases ok <;> rfl

/-- Claim C4, evaluated at the failing input. For the ok response whose body is
an empty JSON object (valid JSON without the field `overall_average_stress`)
`fetchOverallAverage` returns `undefined`, not `null`, and the update in `render`
overwrites alignment, cohesion and count with `NaN` instead of keeping them. -/
theorem render_missing_field_writes_nan :
    fetchOverallAverage (.response true (.json (.object []))) = .undefined ∧
    (render 16 (.response true (.json (.object []))) (initialState 0 6)).effectController.alignment
      = .nan ∧
    (render 16 (.response true (.json (.object []))) (initialState 0 6)).effectController.cohesion
      = .nan ∧
    (render 16 (.response true (.json (.object []))) (initialState 0 6)).effectController.count
      = .nan ∧
    (render 16 (.response true (.json (.object []))) (initialState 0 6)).drawRangeCount = .nan ∧
    JSNum.isFinite
      (render 16 (.response true (.json (.object []))) (initialState 0 6)).effectController.alignment
      = false ∧
    (initialState 0 6).effectController.alignment = .finite 20.0 := by
  have e : (render 16 (.response true (.json (.object []))) (initialState 0 6)).effectController
      = updateParameters .undefined effectController := rfl
  have ha : (updateParameters .undefined effectController).alignment = .nan :=
    mapLinear_nan _ _ _ _ _ rfl
  have hc : (updateParameters .undefined effectController).cohesion = .nan :=
    mapLinear_nan _ _ _ _ _ rfl
  have hn : (updateParameters .undefined effectController).count = .nan :=
    mapLinear_nan _ _ _ _ _ rfl
  refine ⟨rfl, by rw [e]; exact ha, by rw [e]; exact hc, by rw [e]; exact hn, ?_, ?_, ?_⟩
  · rw [render_drawRangeCount, e, hn]
    exact mul_nan_right _
  · rw [e, ha]
    rfl
  · show lit 20.0 = _
    rw [lit_twenty]
    norm_num

/-- The frame step written to the uniforms is `frameDelta`. -/
theorem render_delta_eq (now : ℚ) (fetch : FetchOutcome) (st : State) :
    (render now fetch st).positionUniforms.delta = frameDelta now st.last ∧
    (render now fetch st).velocityUniforms.delta = frameDelta now st.last := ⟨rfl, rfl⟩

/-- Claim C5. For timestamps `last ≤ now` the delta that `render` writes to the
position and the velocity uniforms is `min ((now - last) / 1000) 1`: it is 1 when
at least 1000 ms elapsed, and the elapsed time in seconds otherwise. -/
theorem render_delta_capped (now : ℚ) (fetch : FetchOutcome) (st : State)
    (hle : st.last ≤ now) :
    (render now fetch st).positionUniforms.delta = min ((now - st.last) / 1000) 1 ∧
    (render now fetch st).velocityUniforms.delta = min ((now - st.last) / 1000) 1 ∧
    (1000 ≤ now - st.last →
      (render now fetch st).positionUniforms.delta = 1 ∧
      (render now fetch st).velocityUniforms.delta = 1) ∧
    (now - st.last < 1000 →
      (render now fetch st).positionUniforms.delta = (now - st.last) / 1000 ∧
      (render now fetch st).velocityUniforms.delta = (now - st.last) / 1000) ∧
    0 ≤ (render now fetch st).positionUniforms.delta := by
  have hmin : frameDelta now st.last = min ((now - st.last) / 1000) 1 := by
    unfold frameDelta
    by_cases h : (now - st.last) / 1000 > 1
    · simp only [h, if_true]
      exact (min_eq_right (le_of_lt h)).symm
    · simp only [h, if_false]
      exact (min_eq_left (not_lt.mp h)).symm
  rw [(render_delta_eq now fetch st).1, (render_delta_eq now fetch st).2, hmin]
  refine ⟨rfl, rfl, ?_, ?_, ?_⟩
  · intro h
    have : 1 ≤ (now - st.last) / 1000 := by
      rw [le_div_iff₀ (by norm_num)]; linarith
    exact ⟨min_eq_right this, min_eq_right this⟩
  · intro h
    have : (now - st.last) / 1000 ≤ 1 := by
      rw [div_le_iff₀ (by norm_num)]; linarith
    exact ⟨min_eq_left this, min_eq_left this⟩
  · apply le_min
    · apply div_nonneg _ (by norm_num)
      linarith
    · norm_num

/-- Witness of C5: a stall of 2500 ms and a frame of 16 ms. -/
theorem render_delta_capped_witness :
    (render 2500 .networkError (initialState 0 6)).positionUniforms.delta = 1 ∧
      (render 16 .networkError (initialState 0 6)).velocityUniforms.delta = (16 - 0) / 1000 :=
  ⟨((render_delta_capped 2500 .networkError (initialState 0 6)
      (by norm_num [initialState])).2.2.1 (by norm_num [initialState])).1,
    ((render_delta_capped 16 .networkError (initialState 0 6)
      (by norm_num [initialState])).2.2.2.1 (by norm_num [initialState])).2⟩


/-! ## Integer coercions and the grid coordinates -/

/-- Truncation of an integer is the integer. -/
theorem jsTrunc_intCast (z : ℤ) : jsTrunc (z : ℚ) = z := by
  unfold jsTrunc
  split <;> simp

/-- The result of `ToInt32` is a 32-bit signed integer. -/
theorem toInt32_range (q : ℚ) : -2 ^ 31 ≤ toInt32 q ∧ toInt32 q < 2 ^ 31 := by
  unfold toInt32
  have h1 : 0 ≤ jsTrunc q % 2 ^ 32 := Int.emod_nonneg _ (by norm_num)
  have h2 : jsTrunc q % 2 ^ 32 < 2 ^ 32 := Int.emod_lt_of_pos _ (by norm_num)
  simp only
  split <;> constructor <;> omega

/-- The coercion `ToInt32` fixes the 32-bit signed integers. -/
theorem toInt32_intCast (z : ℤ) (hlo : -2 ^ 31 ≤ z) (hhi : z < 2 ^ 31) :
    toInt32 (z : ℚ) = z := by
  unfold toInt32
  rw [jsTrunc_intCast]
  simp only
  split <;> omega

/-- The idiom `~ ~ x` is `ToInt32`. -/
theorem bitNotNot_eq_toInt32 (q : ℚ) : bitNotNot q = toInt32 q := by
  unfold bitNotNot bitNot
  have h := toInt32_range q
  rw [toInt32_intCast (-(toInt32 q) - 1) (by omega) (by omega)]
  omega

/-- On a natural number below `2^31` the idiom `~ ~ x` is the identity. -/
theorem bitNotNot_natCast (b : ℕ) (hb : b < 2 ^ 31) : bitNotNot ((b : ℤ) : ℚ) = b := by
  rw [bitNotNot_eq_toInt32, toInt32_intCast _ (by omega) (by omega)]

/-- The numerator of `reference.x` is `bird mod WIDTH`. -/
theorem gridX_natCast (b : ℕ) (hb : b < 2 ^ 31) : gridX b = ((b % WIDTH : ℕ) : ℤ) := by
  unfold gridX
  rw [bitNotNot_natCast b hb, Int.tmod_eq_emod (Int.ofNat_nonneg b) (Int.ofNat_nonneg WIDTH)]
  simp

/-- The numerator of `reference.y` is `floor (bird / WIDTH)`. -/
theorem gridY_natCast (b : ℕ) (hb : b < 2 ^ 31) : gridY b = ((b / WIDTH : ℕ) : ℤ) := by
  unfold gridY
  rw [bitNotNot_natCast b hb, bitNotNot_eq_toInt32]
  unfold toInt32
  have hfl : jsTrunc (((b : ℤ) : ℚ) / (WIDTH : ℚ)) = ((b / WIDTH : ℕ) : ℤ) := by
    unfold jsTrunc
    have hnn : (0 : ℚ) ≤ ((b : ℤ) : ℚ) / (WIDTH : ℚ) := by positivity
    rw [if_pos hnn, Rat.floor_intCast_div_natCast]
    simp
  rw [hfl]
  have hlt : b / WIDTH < 2 ^ 31 := lt_of_le_of_lt (Nat.div_le_self _ _) hb
  generalize b / WIDTH = k at hlt
  simp only
  have h1 : (k : ℤ) % 2 ^ 32 = (k : ℤ) := by
    apply Int.emod_eq_of_lt <;> omega
  rw [h1]
  split <;> omega

/-- Claim C6. With `WIDTH = 64` and `BIRDS = WIDTH * WIDTH`, the grid coordinates
that the expansion computes for the instance `i < BIRDS` are `(i mod WIDTH,
floor (i / WIDTH))`, both in `[0, WIDTH)`; distinct instances get distinct
coordinates (and distinct `reference.xy`), and every grid cell is the image of
exactly one instance. -/
theorem grid_coordinates_bijective :
    (WIDTH = 64 ∧ BIRDS = WIDTH * WIDTH) ∧
    (∀ i : ℕ, i < BIRDS →
      gridX i = ((i % WIDTH : ℕ) : ℤ) ∧ gridY i = ((i / WIDTH : ℕ) : ℤ) ∧
      0 ≤ gridX i ∧ gridX i < WIDTH ∧ 0 ≤ gridY i ∧ gridY i < WIDTH) ∧
    (∀ i k : ℕ, i < BIRDS → k < BIRDS →
      gridX i = gridX k → gridY i = gridY k → i = k) ∧
    (∀ i k : ℕ, i < BIRDS → k < BIRDS →
      (gridX i : ℚ) / WIDTH = (gridX k : ℚ) / WIDTH →
      (gridY i : ℚ) / WIDTH = (gridY k : ℚ) / WIDTH → i = k) ∧
    (∀ gx gy : ℕ, gx < WIDTH → gy < WIDTH →
      ∃! i : ℕ, i < BIRDS ∧ gridX i = gx ∧ gridY i = gy) := by
  have hW : WIDTH = 64 := rfl
  have hB : BIRDS = 4096 := rfl
  have hx : ∀ i : ℕ, i < BIRDS → gridX i = ((i % WIDTH : ℕ) : ℤ) := fun i hi =>
    gridX_natCast i (by omega)
  have hy : ∀ i : ℕ, i < BIRDS → gridY i = ((i / WIDTH : ℕ) : ℤ) := fun i hi =>
    gridY_natCast i (by omega)
  have hinj : ∀ i k : ℕ, i < BIRDS → k < BIRDS →
      gridX i = gridX k → gridY i = gridY k → i = k := by
    intro i k hi hk h1 h2
    rw [hx i hi, hx k hk] at h1
    rw [hy i hi, hy k hk] at h2
    rw [hW] at h1 h2
    omega
  refine ⟨⟨rfl, rfl⟩, ?_, hinj, ?_, ?_⟩
  · intro i hi
    rw [hx i hi, hy i hi, hW]
    refine ⟨rfl, rfl, ?_, ?_, ?_, ?_⟩ <;> omega
  · intro i k hi hk h1 h2
    have hne : ((WIDTH : ℕ) : ℚ) ≠ 0 := by rw [hW]; norm_num
    have e1 : gridX i = gridX k := by
      field_simp at h1; exact h1
    have e2 : gridY i = gridY k := by
      field_simp at h2; exact h2
    exact hinj i k hi hk e1 e2
  · intro gx gy hgx hgy
    rw [hW] at hgx hgy
    refine ⟨gy * 64 + gx, ⟨by omega, ?_, ?_⟩, ?_⟩
    · rw [hx _ (by omega), hW]; congr 1; omega
    · rw [hy _ (by omega), hW]; congr 1; omega
    · rintro k ⟨hk, h1, h2⟩
      rw [hx k hk, hW] at h1
      rw [hy k hk, hW] at h2
      omega

/-- Witness of C6: instance 70 sits in cell `(6, 1)`, and cell `(6, 1)` is hit. -/
theorem grid_coordinates_bijective_witness :
    (gridX (70 : ℕ) = ((70 % WIDTH : ℕ) : ℤ) ∧ gridY (70 : ℕ) = ((70 / WIDTH : ℕ) : ℤ)) ∧
      ∃! i : ℕ, i < BIRDS ∧ gridX i = (6 : ℕ) ∧ gridY i = (1 : ℕ) :=
  ⟨⟨(grid_coordinates_bijective.2.1 70 (by decide)).1,
      (grid_coordinates_bijective.2.1 70 (by decide)).2.1⟩,
    grid_coordinates_bijective.2.2.2.2 6 1 (by decide) (by decide)⟩


/-! ## The reference/seeds loop -/

/-- One more iteration of the loop. -/
theorem expandPrefix_succ (rand : ℕ → ℚ) (count tWidth tHeight d n : ℕ) :
    expandPrefix rand count tWidth tHeight d (n + 1)
      = expandStep rand count tWidth tHeight d (expandPrefix rand count tWidth tHeight d n) n := by
  simp [expandPrefix, List.range_succ, List.foldl_append]

/-- Inside an instance the predecessor vertex belongs to the same instance. -/
theorem pred_div_of_mod_ne (n count : ℕ) (hc : 0 < count) (h : n % count ≠ 0) :
    (n - 1) / count = n / count := by
  have hdm := Nat.div_add_mod n count
  have hlt := Nat.mod_lt n hc
  have hs : (n / count + 1) * count = count * (n / count) + count := by ring
  apply Nat.div_eq_of_lt_le
  · rw [Nat.mul_comm]; omega
  · rw [hs]; omega

/-- The first vertex of an instance follows the last vertex of the previous one. -/
theorem pred_div_of_mod_eq (n count : ℕ) (hc : 0 < count) (h : n % count = 0) (hn : n ≠ 0) :
    (n - 1) / count + 1 = n / count := by
  have hdm := Nat.div_add_mod n count
  have hq : 0 < n / count := by
    rcases Nat.eq_zero_or_pos (n / count) with h0 | h0
    · rw [h0, h] at hdm; simp at hdm; omega
    · exact h0
  have hs : (n / count - 1 + 1) * count = count * (n / count) := by
    rw [Nat.sub_add_cancel hq]; ring
  have hs2 : (n / count - 1) * count = count * (n / count) - count := by
    rw [Nat.sub_mul, Nat.mul_comm]; simp
  have hge : count ≤ count * (n / count) := Nat.le_mul_of_pos_right _ hq
  have : (n - 1) / count = n / count - 1 := by
    apply Nat.div_eq_of_lt_le
    · rw [hs2]; omega
    · rw [hs]; omega
  omega

/-- Reading item `i` of a flat array of 4-component items after one more push. -/
theorem getElem?_push_four (l : List ℚ) (n : ℕ) (hl : l.length = 4 * n) (a b c e : ℚ)
    (i k : ℕ) (hk : k < 4) :
    (l ++ [a, b, c, e])[i * 4 + k]? =
      if i < n then l[i * 4 + k]?
      else if i = n then [a, b, c, e][k]?
      else none := by
  by_cases h1 : i < n
  · rw [if_pos h1, List.getElem?_append_left (by omega)]
  · rw [if_neg h1]
    rw [List.getElem?_append_right (by omega)]
    by_cases h2 : i = n
    · rw [if_pos h2]
      congr 1
      omega
    · rw [if_neg h2]
      apply List.getElem?_eq_none
      simp
      omega

/-- The loop invariant of the reference/seeds loop after `n` iterations: the
number of random draws made, the current `r`, and the items pushed so far.
Instance `b` gets its shared random from draw `1 + b * (2 * count + 1)`; vertex `i`
of instance `b` gets its two own randoms from draws `2 + 2 * i + b` and `3 + 2 * i + b`. -/
theorem expandPrefix_spec (rand : ℕ → ℚ) (count tWidth tHeight d : ℕ) (hc : 0 < count)
    (n : ℕ) :
    (expandPrefix rand count tWidth tHeight d n).draws
      = 1 + 2 * n + (if n = 0 then 0 else (n - 1) / count + 1) ∧
    (expandPrefix rand count tWidth tHeight d n).r
      = (if n = 0 then rand 0 else rand (1 + ((n - 1) / count) * (2 * count + 1))) ∧
    (expandPrefix rand count tWidth tHeight d n).reference.length = 4 * n ∧
    (expandPrefix rand count tWidth tHeight d n).seeds.length = 4 * n ∧
    ∀ i : ℕ, i < n →
      (getComponent (expandPrefix rand count tWidth tHeight d n).reference 4 i 0
          = some ((gridX ((i / count : ℕ) : ℤ) : ℚ) / WIDTH) ∧
        getComponent (expandPrefix rand count tWidth tHeight d n).reference 4 i 1
          = some ((gridY ((i / count : ℕ) : ℤ) : ℚ) / WIDTH) ∧
        getComponent (expandPrefix rand count tWidth tHeight d n).reference 4 i 2
          = some (((i % count : ℕ) : ℚ) / tWidth) ∧
        getComponent (expandPrefix rand count tWidth tHeight d n).reference 4 i 3
          = some ((d : ℚ) / tHeight)) ∧
      (getComponent (expandPrefix rand count tWidth tHeight d n).seeds 4 i 0
          = some ((i / count : ℕ) : ℚ) ∧
        getComponent (expandPrefix rand count tWidth tHeight d n).seeds 4 i 1
          = some (rand (1 + (i / count) * (2 * count + 1))) ∧
        getComponent (expandPrefix rand count tWidth tHeight d n).seeds 4 i 2
          = some (rand (2 + 2 * i + i / count)) ∧
        getComponent (expandPrefix rand count tWidth tHeight d n).seeds 4 i 3
          = some (rand (3 + 2 * i + i / count))) := by
  induction n with
  | zero =>
    refine ⟨rfl, rfl, rfl, rfl, ?_⟩
    intro i hi
    omega
  | succ n ih =>
    obtain ⟨hdraws, hr, hlr, hls, hitems⟩ := ih
    rw [expandPrefix_succ]
    generalize expandPrefix rand count tWidth tHeight d n = st at hdraws hr hlr hls hitems
    have hbird : (⌊(n : ℚ) / count⌋ : ℤ) = ((n / count : ℕ) : ℤ) := by
      rw [Rat.floor_natCast_div_natCast]
      simp
    -- the draw counter right after the conditional re-roll of `r`
    have hafter : (if n % count = 0 then st.draws + 1 else st.draws) = 2 + 2 * n + n / count := by
      by_cases hm : n % count = 0
      · rw [if_pos hm, hdraws]
        by_cases hn : n = 0
        · subst hn; simp
        · rw [if_neg hn]
          have := pred_div_of_mod_eq n count hc hm hn
          omega
      · rw [if_neg hm, hdraws]
        have hn : n ≠ 0 := by rintro rfl; simp at hm
        rw [if_neg hn, pred_div_of_mod_ne n count hc hm]
        omega
    have hrnew : (if n % count = 0 then rand st.draws else st.r)
        = rand (1 + (n / count) * (2 * count + 1)) := by
      by_cases hm : n % count = 0
      · rw [if_pos hm, hdraws]
        congr 1
        have hdm := Nat.div_add_mod n count
        rw [hm] at hdm
        have h2 : n / count * (2 * count + 1) = 2 * (count * (n / count)) + n / count := by ring
        by_cases hn : n = 0
        · subst hn; simp
        · rw [if_neg hn]
          have := pred_div_of_mod_eq n count hc hm hn
          omega
      · rw [if_neg hm, hr]
        have hn : n ≠ 0 := by rintro rfl; simp at hm
        rw [if_neg hn, pred_div_of_mod_ne n count hc hm]
    simp only [expandStep, hbird, hafter, hrnew]
    refine ⟨?_, ?_, ?_, ?_, ?_⟩
    · simp; omega
    · simp
    · simp [hlr]; omega
    · simp [hls]; omega
    · intro i hi
      simp only [getComponent] at hitems ⊢
      rw [getElem?_push_four _ n hlr _ _ _ _ i 0 (by omega),
        getElem?_push_four _ n hlr _ _ _ _ i 1 (by omega),
        getElem?_push_four _ n hlr _ _ _ _ i 2 (by omega),
        getElem?_push_four _ n hlr _ _ _ _ i 3 (by omega),
        getElem?_push_four _ n hls _ _ _ _ i 0 (by omega),
        getElem?_push_four _ n hls _ _ _ _ i 1 (by omega),
        getElem?_push_four _ n hls _ _ _ _ i 2 (by omega),
        getElem?_push_four _ n hls _ _ _ _ i 3 (by omega)]
      by_cases hlt : i < n
      · simp only [if_pos hlt]
        exact hitems i hlt
      · have hin : i = n := by omega
        subst hin
        simp only [lt_irrefl, if_false, if_true]
        have e : 2 + 2 * i + i / count + 1 = 3 + 2 * i + i / count := by omega
        rw [e]
        refine ⟨⟨?_, ?_, ?_, ?_⟩, ?_, ?_, ?_, ?_⟩ <;> simp
        norm_cast

/-- Counterexample to C8 as stated: with the draws `1/2, 1/3, 1/4, ...` (all in
`[0, 1)`) and a base mesh of two vertices, the replicated vertices 0 and 1 both
belong to instance 0, yet their `seeds.z` are 1/4 and 1/6 and their `seeds.w` are
1/5 and 1/7. -/
theorem seeds_differ_within_instance :
    (0 / 2 = 1 / 2) ∧
    getComponent (expand (fun n => 1 / ((n : ℚ) + 2)) 2 2 1 1).seeds 4 0 2 = some (1 / 4) ∧
    getComponent (expand (fun n => 1 / ((n : ℚ) + 2)) 2 2 1 1).seeds 4 1 2 = some (1 / 6) ∧
    getComponent (expand (fun n => 1 / ((n : ℚ) + 2)) 2 2 1 1).seeds 4 0 3 = some (1 / 5) ∧
    getComponent (expand (fun n => 1 / ((n : ℚ) + 2)) 2 2 1 1).seeds 4 1 3 = some (1 / 7) ∧
    getComponent (expand (fun n => 1 / ((n : ℚ) + 2)) 2 2 1 1).seeds 4 0 2
      ≠ getComponent (expand (fun n => 1 / ((n : ℚ) + 2)) 2 2 1 1).seeds 4 1 2 := by
  have h := (expandPrefix_spec (fun n => 1 / ((n : ℚ) + 2)) 2 2 1 1 (by decide)
    (2 * BIRDS)).2.2.2.2
  have h0 := (h 0 (by decide)).2
  have h1 := (h 1 (by decide)).2
  unfold expand
  rw [h0.2.2.1, h0.2.2.2, h1.2.2.1, h1.2.2.2]
  norm_num

/-- Claim C8, amended. For every sequence of random draws and every two
replicated vertices `i`, `k` of the same instance, `reference.x`, `reference.y`,
`seeds.x` (the instance number) and `seeds.y` (the shared random, drawn once per
instance) are equal; `seeds.z` and `seeds.w` are separate draws for every vertex. -/
theorem instance_shares_reference_and_seed (rand : ℕ → ℚ) (count tWidth tHeight d i k : ℕ)
    (hi : i < count * BIRDS) (hk : k < count * BIRDS) (hsame : i / count = k / count) :
    (getComponent (expand rand count tWidth tHeight d).reference 4 i 0
        = getComponent (expand rand count tWidth tHeight d).reference 4 k 0 ∧
      getComponent (expand rand count tWidth tHeight d).reference 4 i 1
        = getComponent (expand rand count tWidth tHeight d).reference 4 k 1 ∧
      getComponent (expand rand count tWidth tHeight d).seeds 4 i 0
        = getComponent (expand rand count tWidth tHeight d).seeds 4 k 0 ∧
      getComponent (expand rand count tWidth tHeight d).seeds 4 i 1
        = getComponent (expand rand count tWidth tHeight d).seeds 4 k 1) ∧
    (getComponent (expand rand count tWidth tHeight d).reference 4 i 0
        = some ((gridX ((i / count : ℕ) : ℤ) : ℚ) / WIDTH) ∧
      getComponent (expand rand count tWidth tHeight d).reference 4 i 1
        = some ((gridY ((i / count : ℕ) : ℤ) : ℚ) / WIDTH) ∧
      getComponent (expand rand count tWidth tHeight d).seeds 4 i 0
        = some ((i / count : ℕ) : ℚ) ∧
      getComponent (expand rand count tWidth tHeight d).seeds 4 i 1
        = some (rand (1 + (i / count) * (2 * count + 1)))) ∧
    (getComponent (expand rand count tWidth tHeight d).seeds 4 i 2
        = some (rand (2 + 2 * i + i / count)) ∧
      getComponent (expand rand count tWidth tHeight d).seeds 4 i 3
        = some (rand (3 + 2 * i + i / count))) := by
  have hc : 0 < count := by
    rcases Nat.eq_zero_or_pos count with h0 | h0
    · subst h0; simp at hi
    · exact h0
  have h := (expandPrefix_spec rand count tWidth tHeight d hc (count * BIRDS)).2.2.2.2
  have h1 := h i hi
  have h2 := h k hk
  unfold expand
  rw [h1.1.1, h1.1.2.1, h1.2.1, h1.2.2.1, h1.2.2.2.1, h1.2.2.2.2,
    h2.1.1, h2.1.2.1, h2.2.1, h2.2.2.1, hsame]
  exact ⟨⟨rfl, rfl, rfl, rfl⟩, ⟨rfl, rfl, rfl, rfl⟩, rfl, rfl⟩

/-- Witness of the amended C8: vertices 3 and 5 of a three-vertex mesh, both of
instance 1. -/
theorem instance_shares_reference_and_seed_witness :
    getComponent (expand (fun n => 1 / ((n : ℚ) + 2)) 3 4 8 5).seeds 4 3 1
      = getComponent (expand (fun n => 1 / ((n : ℚ) + 2)) 3 4 8 5).seeds 4 5 1 :=
  (instance_shares_reference_and_seed (fun n => 1 / ((n : ℚ) + 2)) 3 4 8 5 3 5
    (by decide) (by decide) (by decide)).1.2.2.2

/-! ## The indices loop -/

/-- A loop that only pushes is a map. -/
theorem foldl_push_eq_map {α : Type} (f : ℕ → α) (l : List ℕ) (init : List α) :
    l.foldl (fun acc i => acc ++ [f i]) init = init ++ l.map f := by
  induction l generalizing init with
  | nil => simp
  | cons a l ih => simp [ih]

/-- The expanded index buffer as a map over the loop counter. -/
theorem expandIndices_eq_map (indexArray : List ℕ) (count : ℕ) :
    expandIndices indexArray count
      = (List.range (indexArray.length * BIRDS)).map
          (fun i => indexArray[i % indexArray.length]?.map (· + i / indexArray.length * count)) := by
  unfold expandIndices
  have hf : (fun (indices : List (Option ℕ)) (i : ℕ) =>
      let offset := (⌊(i : ℚ) / indexArray.length⌋).toNat * count
      indices ++ [indexArray[i % indexArray.length]?.map (· + offset)])
      = (fun acc i => acc ++
          [(fun i => indexArray[i % indexArray.length]?.map
            (· + i / indexArray.length * count)) i]) := by
    funext indices i
    simp only [Rat.floor_natCast_div_natCast]
    norm_cast
  rw [hf, foldl_push_eq_map]
  simp

/-- Claim C7. The expanded index buffer has `BIRDS * L` entries, entry `i` is
`base[i mod L] + floor (i / L) * V`, and if every base index is below `V` then every
index of instance `k` lies in `[k * V, (k + 1) * V)`, inside the `BIRDS * V` vertices. -/
theorem expandIndices_spec (indexArray : List ℕ) (count : ℕ) :
    (expandIndices indexArray count).length = BIRDS * indexArray.length ∧
    (∀ i : ℕ, i < BIRDS * indexArray.length →
      ∃ b : ℕ, indexArray[i % indexArray.length]? = some b ∧
        (expandIndices indexArray count)[i]? = some (some (b + i / indexArray.length * count))) ∧
    ((∀ b ∈ indexArray, b < count) →
      ∀ k m : ℕ, k < BIRDS → m < indexArray.length →
        ∃ v : ℕ, (expandIndices indexArray count)[k * indexArray.length + m]? = some (some v) ∧
          k * count ≤ v ∧ v < (k + 1) * count ∧ v < BIRDS * count) := by
  have hentry : ∀ i : ℕ, i < BIRDS * indexArray.length →
      ∃ b : ℕ, indexArray[i % indexArray.length]? = some b ∧ b ∈ indexArray ∧
        (expandIndices indexArray count)[i]? = some (some (b + i / indexArray.length * count)) := by
    intro i hi
    have hL : 0 < indexArray.length := by
      rcases Nat.eq_zero_or_pos indexArray.length with h0 | h0
      · rw [h0] at hi; simp at hi
      · exact h0
    have hm : i % indexArray.length < indexArray.length := Nat.mod_lt _ hL
    refine ⟨indexArray[i % indexArray.length], List.getElem?_eq_getElem hm,
      List.getElem_mem _, ?_⟩
    rw [expandIndices_eq_map, List.getElem?_map, List.getElem?_range (by rw [Nat.mul_comm]; exact hi)]
    simp [List.getElem?_eq_getElem hm]
  refine ⟨?_, ?_, ?_⟩
  · rw [expandIndices_eq_map]
    simp [Nat.mul_comm]
  · intro i hi
    obtain ⟨b, h1, _, h2⟩ := hentry i hi
    exact ⟨b, h1, h2⟩
  · intro hb k m hk hm
    have hlt : k * indexArray.length + m < BIRDS * indexArray.length := by
      calc k * indexArray.length + m < k * indexArray.length + indexArray.length := by omega
        _ = (k + 1) * indexArray.length := by ring
        _ ≤ BIRDS * indexArray.length := Nat.mul_le_mul_right _ hk
    obtain ⟨b, _, hmem, h2⟩ := hentry _ hlt
    have hdiv : (k * indexArray.length + m) / indexArray.length = k := by
      rw [Nat.mul_comm, Nat.mul_add_div (by omega), Nat.div_eq_of_lt hm]
      simp
    rw [hdiv] at h2
    have hbc := hb b hmem
    refine ⟨b + k * count, h2, by omega, ?_, ?_⟩
    · have : (k + 1) * count = k * count + count := by ring
      omega
    · calc b + k * count < k * count + count := by omega
        _ = (k + 1) * count := by ring
        _ ≤ BIRDS * count := Nat.mul_le_mul_right _ hk

/-- Witness of C7: a one-triangle mesh, second index of instance 1. -/
theorem expandIndices_spec_witness :
    ∃ v : ℕ, (expandIndices [0, 2, 1] 3)[1 * [0, 2, 1].length + 1]? = some (some v) ∧
      1 * 3 ≤ v ∧ v < (1 + 1) * 3 ∧ v < BIRDS * 3 :=
  (expandIndices_spec [0, 2, 1] 3).2.2 (by decide) 1 1 (by decide) (by decide)


/-! ## The animation bake: row constants -/

/-- The scaled row position `j / d * L` of a row below the frame count lies in `[0, L)`. -/
theorem row_position_bounds (j d L : ℕ) (hd : 1 ≤ d) (hj : j < d) (hL : 1 ≤ L) :
    (0 : ℚ) ≤ (j : ℚ) / d * L ∧ (j : ℚ) / d * L < L := by
  have hdq : (0 : ℚ) < d := by exact_mod_cast hd
  have hLq : (0 : ℚ) < L := by exact_mod_cast hL
  have hjq : (j : ℚ) < d := by exact_mod_cast hj
  constructor
  · positivity
  · have h1 : (j : ℚ) / d < 1 := by rw [div_lt_one hdq]; exact hjq
    calc (j : ℚ) / d * L < 1 * L := mul_lt_mul_of_pos_right h1 hLq
      _ = L := one_mul _

/-- The remainder modulo 1 of a non-negative number is its fractional part. -/
theorem jsRem_one_of_nonneg (x : ℚ) (hx : 0 ≤ x) : jsRem x 1 = Int.fract x := by
  unfold jsRem jsTrunc
  rw [div_one, if_pos hx, one_mul]
  rfl

/-- With a clamped amount in `[0, 1]` the value of `Math.lerp` lies between its
two end values. -/
theorem lerp_between (v0 v1 amount : ℚ) (h0 : 0 ≤ amount) (h1 : amount ≤ 1) :
    lerp v0 v1 amount = v0 + (v1 - v0) * amount ∧
    min v0 v1 ≤ lerp v0 v1 amount ∧ lerp v0 v1 amount ≤ max v0 v1 := by
  have hclamp : max (min amount 1) 0 = amount := by
    rw [min_eq_left h1, max_eq_left h0]
  have hval : lerp v0 v1 amount = v0 + (v1 - v0) * amount := by
    unfold lerp
    simp only [hclamp]
  rw [hval]
  refine ⟨rfl, ?_, ?_⟩
  · rcases le_total v0 v1 with h | h
    · rw [min_eq_left h]
      have : 0 ≤ (v1 - v0) * amount := mul_nonneg (by linarith) h0
      linarith
    · rw [min_eq_right h]
      have : (v0 - v1) * amount ≤ (v0 - v1) * 1 :=
        mul_le_mul_of_nonneg_left h1 (by linarith)
      linarith
  · rcases le_total v0 v1 with h | h
    · rw [max_eq_right h]
      have : (v1 - v0) * amount ≤ (v1 - v0) * 1 :=
        mul_le_mul_of_nonneg_left h1 (by linarith)
      linarith
    · rw [max_eq_left h]
      have : 0 ≤ (v0 - v1) * amount := mul_nonneg (by linarith) h0
      linarith

/-- The row constants of a row below the frame count: `curMorph` and `nextMorph`
lie in `[0, L)`, both reads of `morphAttributes` succeed, `lerpAmount` lies in
`[0, 1)` and is left unchanged by the clamp in `Math.lerp`. -/
theorem row_constants_in_range (morphAttributes : List (List ℚ)) (d j : ℕ)
    (hL : 1 ≤ morphAttributes.length) (hd : 1 ≤ d) (hj : j < d) :
    (0 ≤ curMorph j d morphAttributes.length ∧
      curMorph j d morphAttributes.length < morphAttributes.length) ∧
    (0 ≤ nextMorph j d morphAttributes.length ∧
      nextMorph j d morphAttributes.length < morphAttributes.length) ∧
    nextMorph j d morphAttributes.length
      = (curMorph j d morphAttributes.length + 1) % morphAttributes.length ∧
    (∃ a0 a1 : List ℚ,
      morphArray morphAttributes (curMorph j d morphAttributes.length) = some a0 ∧
      morphArray morphAttributes (nextMorph j d morphAttributes.length) = some a1) ∧
    (0 ≤ lerpAmount j d morphAttributes.length ∧ lerpAmount j d morphAttributes.length < 1) ∧
    max (min (lerpAmount j d morphAttributes.length) 1) 0
      = lerpAmount j d morphAttributes.length ∧
    ∀ v0 v1 : ℚ,
      lerp v0 v1 (lerpAmount j d morphAttributes.length)
        = v0 + (v1 - v0) * lerpAmount j d morphAttributes.length ∧
      min v0 v1 ≤ lerp v0 v1 (lerpAmount j d morphAttributes.length) ∧
      lerp v0 v1 (lerpAmount j d morphAttributes.length) ≤ max v0 v1 := by
  obtain ⟨hx0, hxL⟩ := row_position_bounds j d morphAttributes.length hd hj hL
  have hLz : (0 : ℤ) < (morphAttributes.length : ℤ) := by exact_mod_cast hL
  have hcur0 : 0 ≤ curMorph j d morphAttributes.length := Int.floor_nonneg.mpr hx0
  have hcurL : curMorph j d morphAttributes.length < morphAttributes.length := by
    unfold curMorph
    rw [Int.floor_lt]
    exact_mod_cast hxL
  have hnext : nextMorph j d morphAttributes.length
      = (curMorph j d morphAttributes.length + 1) % morphAttributes.length := by
    unfold nextMorph curMorph
    unfold curMorph at hcur0
    exact Int.tmod_eq_emod (by omega) (by omega)
  have hnext0 : 0 ≤ nextMorph j d morphAttributes.length := by
    rw [hnext]; exact Int.emod_nonneg _ (by omega)
  have hnextL : nextMorph j d morphAttributes.length < morphAttributes.length := by
    rw [hnext]; exact Int.emod_lt_of_pos _ hLz
  have hlookup : ∀ k : ℤ, 0 ≤ k → k < morphAttributes.length →
      ∃ a : List ℚ, morphArray morphAttributes k = some a := by
    intro k hk0 hkL
    have hlt : k.toNat < morphAttributes.length := by omega
    refine ⟨morphAttributes[k.toNat], ?_⟩
    unfold morphArray
    rw [if_neg (by omega)]
    exact List.getElem?_eq_getElem hlt
  obtain ⟨a0, ha0⟩ := hlookup _ hcur0 hcurL
  obtain ⟨a1, ha1⟩ := hlookup _ hnext0 hnextL
  have hamt : lerpAmount j d morphAttributes.length
      = Int.fract ((j : ℚ) / d * morphAttributes.length) := jsRem_one_of_nonneg _ hx0
  have ham0 : 0 ≤ lerpAmount j d morphAttributes.length := by
    rw [hamt]; exact Int.fract_nonneg _
  have ham1 : lerpAmount j d morphAttributes.length < 1 := by
    rw [hamt]; exact Int.fract_lt_one _
  refine ⟨⟨hcur0, hcurL⟩, ⟨hnext0, hnextL⟩, hnext, ⟨a0, a1, ha0, ha1⟩, ⟨ham0, ham1⟩, ?_, ?_⟩
  · rw [min_eq_left (le_of_lt ham1), max_eq_left ham0]
  · intro v0 v1
    exact lerp_between v0 v1 _ ham0 (le_of_lt ham1)


/-! ## The animation bake: the texture -/

/-- Texel component addresses determine column, row and channel. -/
theorem cell_address_inj (tWidth i j c i' j' c' : ℕ) (hi : i < tWidth) (hi' : i' < tWidth)
    (hc : c < 4) (hc' : c' < 4)
    (h : j * tWidth * 4 + i * 4 + c = j' * tWidth * 4 + i' * 4 + c') :
    i = i' ∧ j = j' ∧ c = c' := by
  have hcc : c = c' := by omega
  have hsum : j * tWidth + i = j' * tWidth + i' := by omega
  have hmod : (j * tWidth + i) % tWidth = (j' * tWidth + i') % tWidth := by rw [hsum]
  rw [Nat.add_comm (j * tWidth), Nat.add_comm (j' * tWidth), Nat.add_mul_mod_self_right,
    Nat.add_mul_mod_self_right, Nat.mod_eq_of_lt hi, Nat.mod_eq_of_lt hi'] at hmod
  have hmul : j * tWidth = j' * tWidth := by omega
  exact ⟨hmod, Nat.eq_of_mul_eq_mul_right (by omega) hmul, hcc⟩

/-- A guarded channel write leaves every other position alone. -/
theorem writeChannel_getElem?_ne (t : List ℚ) (idx p : ℕ) (d0 d1 : Option ℚ) (amount : ℚ)
    (h : idx ≠ p) : (writeChannel t idx d0 d1 amount)[p]? = t[p]? := by
  unfold writeChannel
  split
  · exact List.getElem?_set_ne h
  · rfl

/-- A guarded channel write keeps the length. -/
theorem writeChannel_length (t : List ℚ) (idx : ℕ) (d0 d1 : Option ℚ) (amount : ℚ) :
    (writeChannel t idx d0 d1 amount).length = t.length := by
  unfold writeChannel
  split
  · exact List.length_set _ _ _
  · rfl

/-- The value at the written position after a guarded channel write. -/
theorem writeChannel_getElem?_self (t : List ℚ) (idx : ℕ) (d0 d1 : Option ℚ) (amount : ℚ) :
    (writeChannel t idx d0 d1 amount)[idx]? =
      (t[idx]?).map (fun old =>
        match d0, d1 with
        | some v0, some v1 => lerp v0 v1 amount
        | _, _ => old) := by
  unfold writeChannel
  split
  · rw [List.getElem?_set]
    by_cases h : idx < t.length
    · simp [h, List.getElem?_eq_getElem h]
    · simp [h, List.getElem?_eq_none (not_lt.mp h)]
  · cases h : t[idx]? <;> simp

/-- The inner-loop body in a row at or beyond the frame count does nothing. -/
theorem bakeCell_of_not_lt (morphAttributes : List (List ℚ)) (d tWidth i j : ℕ) (t : List ℚ)
    (h : ¬ j < d) : bakeCell morphAttributes d tWidth i j t = some t := by
  unfold bakeCell
  simp only [if_neg h]
  rfl

/-- The inner-loop body in a row below the frame count, once both morph reads
succeed: three guarded channel writes and the validity write. -/
theorem bakeCell_of_lt (morphAttributes : List (List ℚ)) (d tWidth i j : ℕ) (t : List ℚ)
    (a0 a1 : List ℚ) (h : j < d)
    (h0 : morphArray morphAttributes (curMorph j d morphAttributes.length) = some a0)
    (h1 : morphArray morphAttributes (nextMorph j d morphAttributes.length) = some a1) :
    bakeCell morphAttributes d tWidth i j t = some
      ((writeChannel
        (writeChannel
          (writeChannel t (j * tWidth * 4 + i * 4) a0[i * 3]? a1[i * 3]?
            (lerpAmount j d morphAttributes.length))
          (j * tWidth * 4 + i * 4 + 1) a0[i * 3 + 1]? a1[i * 3 + 1]?
          (lerpAmount j d morphAttributes.length))
        (j * tWidth * 4 + i * 4 + 2) a0[i * 3 + 2]? a1[i * 3 + 2]?
        (lerpAmount j d morphAttributes.length)).set (j * tWidth * 4 + i * 4 + 3) 1) := by
  unfold bakeCell
  simp only [if_pos h, h0, h1]
  rfl

/-- The inner-loop body returns whenever there is at least one morph frame, or
no animation frame at all. -/
theorem bakeCell_total (morphAttributes : List (List ℚ)) (d tWidth i j : ℕ) (t : List ℚ)
    (hL : 1 ≤ morphAttributes.length ∨ d = 0) :
    ∃ t', bakeCell morphAttributes d tWidth i j t = some t' := by
  by_cases h : j < d
  · have hL1 : 1 ≤ morphAttributes.length := by
      rcases hL with hL | hL
      · exact hL
      · omega
    obtain ⟨a0, a1, h0, h1⟩ :=
      (row_constants_in_range morphAttributes d j hL1 (by omega) h).2.2.2.1
    exact ⟨_, bakeCell_of_lt morphAttributes d tWidth i j t a0 a1 h h0 h1⟩
  · exact ⟨t, bakeCell_of_not_lt morphAttributes d tWidth i j t h⟩

/-- The two ways in which the inner-loop body returns. -/
theorem bakeCell_cases (morphAttributes : List (List ℚ)) (d tWidth i j : ℕ) (t t' : List ℚ)
    (h : bakeCell morphAttributes d tWidth i j t = some t') :
    (¬ j < d ∧ t' = t) ∨
    (j < d ∧ ∃ a0 a1 : List ℚ,
      morphArray morphAttributes (curMorph j d morphAttributes.length) = some a0 ∧
      morphArray morphAttributes (nextMorph j d morphAttributes.length) = some a1 ∧
      t' = (writeChannel
        (writeChannel
          (writeChannel t (j * tWidth * 4 + i * 4) a0[i * 3]? a1[i * 3]?
            (lerpAmount j d morphAttributes.length))
          (j * tWidth * 4 + i * 4 + 1) a0[i * 3 + 1]? a1[i * 3 + 1]?
          (lerpAmount j d morphAttributes.length))
        (j * tWidth * 4 + i * 4 + 2) a0[i * 3 + 2]? a1[i * 3 + 2]?
        (lerpAmount j d morphAttributes.length)).set (j * tWidth * 4 + i * 4 + 3) 1) := by
  by_cases hj : j < d
  · right
    refine ⟨hj, ?_⟩
    cases h0 : morphArray morphAttributes (curMorph j d morphAttributes.length) with
    | none =>
      unfold bakeCell at h
      simp only [if_pos hj, h0] at h
      cases h
    | some a0 =>
      cases h1 : morphArray morphAttributes (nextMorph j d morphAttributes.length) with
      | none =>
        unfold bakeCell at h
        simp only [if_pos hj, h0, h1] at h
        cases h
      | some a1 =>
        rw [bakeCell_of_lt morphAttributes d tWidth i j t a0 a1 hj h0 h1] at h
        exact ⟨a0, a1, rfl, rfl, (Option.some.inj h).symm⟩
  · left
    rw [bakeCell_of_not_lt _ _ _ _ _ _ hj] at h
    exact ⟨hj, (Option.some.inj h).symm⟩

/-- The inner-loop body keeps the length of the texture data. -/
theorem bakeCell_length (morphAttributes : List (List ℚ)) (d tWidth i j : ℕ) (t t' : List ℚ)
    (h : bakeCell morphAttributes d tWidth i j t = some t') : t'.length = t.length := by
  rcases bakeCell_cases _ _ _ _ _ _ _ h with ⟨_, rfl⟩ | ⟨_, a0, a1, _, _, rfl⟩
  · rfl
  · rw [List.length_set, writeChannel_length, writeChannel_length, writeChannel_length]

/-- The inner-loop body for column `i'` and row `j'` writes only the four
components of its own texel. -/
theorem bakeCell_frame (morphAttributes : List (List ℚ)) (d tWidth i' j' p : ℕ)
    (t t' : List ℚ) (h : bakeCell morphAttributes d tWidth i' j' t = some t')
    (hp : ∀ c' : ℕ, c' < 4 → j' * tWidth * 4 + i' * 4 + c' ≠ p) : t'[p]? = t[p]? := by
  rcases bakeCell_cases _ _ _ _ _ _ _ h with ⟨_, rfl⟩ | ⟨_, a0, a1, _, _, rfl⟩
  · rfl
  · rw [List.getElem?_set_ne (hp 3 (by omega)),
      writeChannel_getElem?_ne _ _ _ _ _ _ (hp 2 (by omega)),
      writeChannel_getElem?_ne _ _ _ _ _ _ (hp 1 (by omega)),
      writeChannel_getElem?_ne _ _ _ _ _ _ (by simpa using hp 0 (by omega))]

/-! ### Loops in the option monad -/

/-- One more iteration of a fallible loop over `0 .. n`. -/
theorem foldlM_range_succ {σ : Type} (f : σ → ℕ → Option σ) (n : ℕ) (t : σ) :
    (List.range (n + 1)).foldlM f t = ((List.range n).foldlM f t).bind (fun t' => f t' n) := by
  rw [List.range_succ, List.foldlM_append]
  simp [List.foldlM_cons, List.foldlM_nil]

/-- A fallible loop returns when each of its iterations returns. -/
theorem foldlM_range_total {σ : Type} (f : σ → ℕ → Option σ) (n : ℕ)
    (hsome : ∀ k t, k < n → ∃ t', f t k = some t') (t : σ) :
    ∃ t', (List.range n).foldlM f t = some t' := by
  induction n with
  | zero => exact ⟨t, rfl⟩
  | succ n ih =>
    obtain ⟨t1, h1⟩ := ih (fun k t hk => hsome k t (by omega))
    obtain ⟨t2, h2⟩ := hsome n t1 (by omega)
    refine ⟨t2, ?_⟩
    rw [foldlM_range_succ, h1]
    exact h2

/-- A property kept by every iteration is kept by the loop. -/
theorem foldlM_range_invariant {σ : Type} (P : σ → Prop) (f : σ → ℕ → Option σ) (n : ℕ)
    (hstep : ∀ k t t', k < n → P t → f t k = some t' → P t') (t t' : σ) (ht : P t)
    (h : (List.range n).foldlM f t = some t') : P t' := by
  induction n generalizing t' with
  | zero =>
    have : t' = t := (Option.some.inj h).symm
    rw [this]; exact ht
  | succ n ih =>
    rw [foldlM_range_succ] at h
    obtain ⟨t1, h1, h2⟩ := Option.bind_eq_some.mp h
    exact hstep n t1 t' (by omega) (ih (fun k t t' hk => hstep k t t' (by omega)) t1 h1) h2

/-- When only iteration `k0` touches position `p`, the loop changes the value
at `p` exactly as iteration `k0` does. -/
theorem foldlM_range_single (f : List ℚ → ℕ → Option (List ℚ)) (p : ℕ)
    (g : Option ℚ → Option ℚ) (n k0 : ℕ) (hk0 : k0 < n)
    (hframe : ∀ k t t', k < n → k ≠ k0 → f t k = some t' → t'[p]? = t[p]?)
    (hcell : ∀ t t', f t k0 = some t' → t'[p]? = g (t[p]?)) (t t' : List ℚ)
    (h : (List.range n).foldlM f t = some t') : t'[p]? = g (t[p]?) := by
  induction n generalizing t' with
  | zero => omega
  | succ n ih =>
    rw [foldlM_range_succ] at h
    obtain ⟨t1, h1, h2⟩ := Option.bind_eq_some.mp h
    by_cases hk : k0 = n
    · subst hk
      have hpre : t1[p]? = t[p]? :=
        foldlM_range_invariant (fun s => s[p]? = t[p]?) f k0
          (fun k s s' hk hs hf =>
            (hframe k s s' (by omega) (by omega) hf).trans hs) t t1 rfl h1
      rw [hcell t1 t' h2, hpre]
    · rw [hframe n t1 t' (by omega) (fun e => hk e.symm) h2]
      exact ih (by omega) (fun k s s' hk => hframe k s s' (by omega)) t1 h1

/-! ### The baked texture -/

/-- The inner loop of the bake for the column `i`. -/
theorem bake_eq (morphAttributes : List (List ℚ)) (d tWidth tHeight : ℕ) :
    bake morphAttributes d tWidth tHeight
      = (List.range tWidth).foldlM
          (fun tData i =>
            (List.range tHeight).foldlM
              (fun tData j => bakeCell morphAttributes d tWidth i j tData) tData)
          (List.replicate (4 * tWidth * tHeight) 0) := rfl

/-- The bake returns a texture of `4 * tWidth * tHeight` components whenever
there is at least one morph frame, or no animation frame at all. -/
theorem bake_total (morphAttributes : List (List ℚ)) (d tWidth tHeight : ℕ)
    (hL : 1 ≤ morphAttributes.length ∨ d = 0) :
    ∃ tData, bake morphAttributes d tWidth tHeight = some tData ∧
      tData.length = 4 * tWidth * tHeight := by
  obtain ⟨tData, h⟩ := foldlM_range_total
    (fun tData i =>
      (List.range tHeight).foldlM
        (fun tData j => bakeCell morphAttributes d tWidth i j tData) tData) tWidth
    (fun i t _ => foldlM_range_total _ tHeight
      (fun j t _ => bakeCell_total morphAttributes d tWidth i j t hL) t)
    (List.replicate (4 * tWidth * tHeight) 0)
  refine ⟨tData, h, ?_⟩
  refine foldlM_range_invariant (fun t => t.length = 4 * tWidth * tHeight) _ tWidth ?_ _ _
    (List.length_replicate _ _) h
  intro i t t' _ ht hi
  refine foldlM_range_invariant (fun t => t.length = 4 * tWidth * tHeight) _ tHeight ?_ _ _ ht hi
  intro j s s' _ hs hj
  rw [bakeCell_length _ _ _ _ _ _ _ hj]
  exact hs

/-- The component `c` of the texel in column `i` and row `j` of the baked texture
is what the loop body for `(i, j)` makes of the initial 0. -/
theorem bake_cell (morphAttributes : List (List ℚ)) (d tWidth tHeight i j c : ℕ)
    (g : Option ℚ → Option ℚ) (tData : List ℚ) (hi : i < tWidth) (hj : j < tHeight)
    (hc : c < 4)
    (hcell : ∀ t t', bakeCell morphAttributes d tWidth i j t = some t' →
      t'[j * tWidth * 4 + i * 4 + c]? = g (t[j * tWidth * 4 + i * 4 + c]?))
    (h : bake morphAttributes d tWidth tHeight = some tData) :
    tData[j * tWidth * 4 + i * 4 + c]? = g (some 0) := by
  have hinit : (List.replicate (4 * tWidth * tHeight) (0 : ℚ))[j * tWidth * 4 + i * 4 + c]?
      = some 0 := by
    rw [List.getElem?_replicate, if_pos]
    have h1 : (j + 1) * tWidth ≤ tHeight * tWidth := Nat.mul_le_mul_right _ hj
    have h2 : (j + 1) * tWidth = j * tWidth + tWidth := by ring
    have h3 : 4 * tWidth * tHeight = tHeight * tWidth * 4 := by ring
    omega
  rw [bake_eq] at h
  rw [← hinit]
  refine foldlM_range_single _ _ g tWidth i hi ?_ ?_ _ _ h
  · intro i' t t' hi' hne hin
    refine foldlM_range_invariant
      (fun s => s[j * tWidth * 4 + i * 4 + c]? = t[j * tWidth * 4 + i * 4 + c]?) _ tHeight
      ?_ t t' rfl hin
    intro j' s s' _ hs hstep
    rw [bakeCell_frame _ _ _ _ _ _ _ _ hstep]
    · exact hs
    · intro c' hc' heq
      exact hne (cell_address_inj tWidth i' j' c' i j c hi' hi hc' hc heq).1
  · intro t t' hin
    refine foldlM_range_single _ _ g tHeight j hj ?_ hcell t t' hin
    intro j' s s' _ hne hstep
    refine bakeCell_frame _ _ _ _ _ _ _ _ hstep ?_
    intro c' hc' heq
    exact hne (cell_address_inj tWidth i j' c' i j c hi hi hc' hc heq).2.1

/-- A row at or beyond the frame count is left at 0. -/
theorem bake_cell_beyond (morphAttributes : List (List ℚ)) (d tWidth tHeight i j c : ℕ)
    (tData : List ℚ) (hi : i < tWidth) (hj : j < tHeight) (hc : c < 4) (hd : d ≤ j)
    (h : bake morphAttributes d tWidth tHeight = some tData) :
    tData[j * tWidth * 4 + i * 4 + c]? = some 0 := by
  refine bake_cell morphAttributes d tWidth tHeight i j c id tData hi hj hc ?_ h
  intro t t' hstep
  rw [bakeCell_of_not_lt _ _ _ _ _ _ (by omega)] at hstep
  rw [← Option.some.inj hstep]
  rfl

/-- The validity channel of a row below the frame count is 1. -/
theorem bake_cell_validity (morphAttributes : List (List ℚ)) (d tWidth tHeight i j : ℕ)
    (tData : List ℚ) (hi : i < tWidth) (hj : j < tHeight) (hd : j < d)
    (h : bake morphAttributes d tWidth tHeight = some tData) :
    tData[j * tWidth * 4 + i * 4 + 3]? = some 1 := by
  refine bake_cell morphAttributes d tWidth tHeight i j 3 (Option.map (fun _ => 1)) tData hi hj
    (by omega) ?_ h
  intro t t' hstep
  rcases bakeCell_cases _ _ _ _ _ _ _ hstep with ⟨hn, _⟩ | ⟨_, a0, a1, _, _, rfl⟩
  · exact absurd hd hn
  · rw [List.getElem?_set, if_pos rfl, writeChannel_length, writeChannel_length,
      writeChannel_length]
    by_cases hlen : j * tWidth * 4 + i * 4 + 3 < t.length
    · simp [hlen, List.getElem?_eq_getElem hlen]
    · simp [hlen, List.getElem?_eq_none (not_lt.mp hlen)]

/-- An offset channel of a row below the frame count: the interpolated value
when both morph arrays have data for it, and the initial 0 otherwise. -/
theorem bake_cell_offset (morphAttributes : List (List ℚ)) (d tWidth tHeight i j c : ℕ)
    (tData a0 a1 : List ℚ) (hi : i < tWidth) (hj : j < tHeight) (hc : c < 3) (hd : j < d)
    (h0 : morphArray morphAttributes (curMorph j d morphAttributes.length) = some a0)
    (h1 : morphArray morphAttributes (nextMorph j d morphAttributes.length) = some a1)
    (h : bake morphAttributes d tWidth tHeight = some tData) :
    tData[j * tWidth * 4 + i * 4 + c]? = some
      (match a0[i * 3 + c]?, a1[i * 3 + c]? with
        | some v0, some v1 => lerp v0 v1 (lerpAmount j d morphAttributes.length)
        | _, _ => 0) := by
  refine bake_cell morphAttributes d tWidth tHeight i j c
    (Option.map (fun old =>
      match a0[i * 3 + c]?, a1[i * 3 + c]? with
      | some v0, some v1 => lerp v0 v1 (lerpAmount j d morphAttributes.length)
      | _, _ => old)) tData hi hj (by omega) ?_ h
  intro t t' hstep
  rw [bakeCell_of_lt morphAttributes d tWidth i j t a0 a1 hd h0 h1] at hstep
  rw [← Option.some.inj hstep]
  have hc3 : c = 0 ∨ c = 1 ∨ c = 2 := by omega
  rcases hc3 with rfl | rfl | rfl
  · rw [List.getElem?_set_ne (by omega), writeChannel_getElem?_ne _ _ _ _ _ _ (by omega),
      writeChannel_getElem?_ne _ _ _ _ _ _ (by omega)]
    exact writeChannel_getElem?_self _ _ _ _ _
  · rw [List.getElem?_set_ne (by omega), writeChannel_getElem?_ne _ _ _ _ _ _ (by omega),
      writeChannel_getElem?_self, writeChannel_getElem?_ne _ _ _ _ _ _ (by omega)]
  · rw [List.getElem?_set_ne (by omega), writeChannel_getElem?_self,
      writeChannel_getElem?_ne _ _ _ _ _ _ (by omega),
      writeChannel_getElem?_ne _ _ _ _ _ _ (by omega)]

/-- A morph array that is read is one of the morph attributes. -/
theorem morphArray_mem (morphAttributes : List (List ℚ)) (k : ℤ) (a : List ℚ)
    (h : morphArray morphAttributes k = some a) : a ∈ morphAttributes := by
  unfold morphArray at h
  split at h
  · cases h
  · exact List.getElem?_mem h

/-- Claim C9. In the bake, for a frame count `d ≥ 1`, `L ≥ 1` morph frames and
a row `j < d`: `curMorph` and `nextMorph = (curMorph + 1) mod L` lie in `[0, L)`, so
both reads of `morphAttributes` succeed; `lerpAmount` lies in `[0, 1)`, so the clamp in
`Math.lerp` leaves it unchanged; and the value written to an offset channel of the
texture is the interpolation of the two offsets and lies between them. -/
theorem bake_row_in_range (morphAttributes : List (List ℚ)) (d j : ℕ)
    (hL : 1 ≤ morphAttributes.length) (hd : 1 ≤ d) (hj : j < d) :
    (0 ≤ curMorph j d morphAttributes.length ∧
      curMorph j d morphAttributes.length < morphAttributes.length) ∧
    (0 ≤ nextMorph j d morphAttributes.length ∧
      nextMorph j d morphAttributes.length < morphAttributes.length) ∧
    nextMorph j d morphAttributes.length
      = (curMorph j d morphAttributes.length + 1) % morphAttributes.length ∧
    (∃ a0 a1 : List ℚ,
      morphArray morphAttributes (curMorph j d morphAttributes.length) = some a0 ∧
      morphArray morphAttributes (nextMorph j d morphAttributes.length) = some a1) ∧
    (0 ≤ lerpAmount j d morphAttributes.length ∧ lerpAmount j d morphAttributes.length < 1) ∧
    max (min (lerpAmount j d morphAttributes.length) 1) 0
      = lerpAmount j d morphAttributes.length ∧
    ∀ (tWidth tHeight i c : ℕ) (a0 a1 : List ℚ) (v0 v1 : ℚ),
      i < tWidth → j < tHeight → c < 3 →
      morphArray morphAttributes (curMorph j d morphAttributes.length) = some a0 →
      morphArray morphAttributes (nextMorph j d morphAttributes.length) = some a1 →
      a0[i * 3 + c]? = some v0 → a1[i * 3 + c]? = some v1 →
      ∃ tData : List ℚ, bake morphAttributes d tWidth tHeight = some tData ∧
        tData[j * tWidth * 4 + i * 4 + c]?
          = some (lerp v0 v1 (lerpAmount j d morphAttributes.length)) ∧
        lerp v0 v1 (lerpAmount j d morphAttributes.length)
          = v0 + (v1 - v0) * lerpAmount j d morphAttributes.length ∧
        min v0 v1 ≤ lerp v0 v1 (lerpAmount j d morphAttributes.length) ∧
        lerp v0 v1 (lerpAmount j d morphAttributes.length) ≤ max v0 v1 := by
  obtain ⟨hcur, hnext, hmod, hread, hamt, hclamp, hlerp⟩ :=
    row_constants_in_range morphAttributes d j hL hd hj
  refine ⟨hcur, hnext, hmod, hread, hamt, hclamp, ?_⟩
  intro tWidth tHeight i c a0 a1 v0 v1 hi hjh hc h0 h1 hv0 hv1
  obtain ⟨tData, hb, _⟩ := bake_total morphAttributes d tWidth tHeight (Or.inl hL)
  have hval := bake_cell_offset morphAttributes d tWidth tHeight i j c tData a0 a1 hi hjh hc hj
    h0 h1 hb
  rw [hv0, hv1] at hval
  exact ⟨tData, hb, hval, hlerp v0 v1⟩

/-- Witness of C9: row 2 of a 3-frame animation with 2 morph frames. -/
theorem bake_row_in_range_witness :
    (0 ≤ curMorph 2 3 [[0, 1, 2], [10, 11, 12]].length ∧
      curMorph 2 3 [[0, 1, 2], [10, 11, 12]].length < [[0, 1, 2], [10, 11, 12]].length) ∧
      (0 ≤ lerpAmount 2 3 [[0, 1, 2], [10, 11, 12]].length ∧
        lerpAmount 2 3 [[0, 1, 2], [10, 11, 12]].length < 1) :=
  ⟨(bake_row_in_range [[0, 1, 2], [10, 11, 12]] 3 2 (by decide) (by decide) (by decide)).1,
    (bake_row_in_range [[0, 1, 2], [10, 11, 12]] 3 2
      (by decide) (by decide) (by decide)).2.2.2.2.1⟩

/-- Claim C10. With at least one morph frame (or no animation frame) the bake
returns a texture of `4 * tWidth * tHeight` components in which, for every column
`i < tWidth` and row `j < tHeight`: the validity channel is 1 exactly when
`j < frameCount`; a row at or beyond the frame count has all four channels 0; and
in a column at or beyond the vertex count the channels dx, dy, dz are 0. -/
theorem bake_validity (morphAttributes : List (List ℚ)) (d tWidth tHeight : ℕ)
    (hL : 1 ≤ morphAttributes.length ∨ d = 0) :
    ∃ tData : List ℚ, bake morphAttributes d tWidth tHeight = some tData ∧
      tData.length = 4 * tWidth * tHeight ∧
      ∀ i j : ℕ, i < tWidth → j < tHeight →
        (tData[j * tWidth * 4 + i * 4 + 3]? = some 1 ↔ j < d) ∧
        (j < d → tData[j * tWidth * 4 + i * 4 + 3]? = some 1) ∧
        (d ≤ j → ∀ c : ℕ, c < 4 → tData[j * tWidth * 4 + i * 4 + c]? = some 0) ∧
        (∀ V : ℕ, (∀ a ∈ morphAttributes, a.length = 3 * V) → V ≤ i →
          ∀ c : ℕ, c < 3 → tData[j * tWidth * 4 + i * 4 + c]? = some 0) := by
  obtain ⟨tData, hb, hlen⟩ := bake_total morphAttributes d tWidth tHeight hL
  refine ⟨tData, hb, hlen, ?_⟩
  intro i j hi hj
  have hvalid : j < d → tData[j * tWidth * 4 + i * 4 + 3]? = some 1 := fun hd =>
    bake_cell_validity morphAttributes d tWidth tHeight i j tData hi hj hd hb
  have hzero : d ≤ j → ∀ c : ℕ, c < 4 → tData[j * tWidth * 4 + i * 4 + c]? = some 0 :=
    fun hd c hc => bake_cell_beyond morphAttributes d tWidth tHeight i j c tData hi hj hc hd hb
  refine ⟨⟨?_, hvalid⟩, hvalid, hzero, ?_⟩
  · intro h1
    by_contra hnot
    rw [hzero (not_lt.mp hnot) 3 (by omega)] at h1
    have : (0 : ℚ) = 1 := Option.some.inj h1
    norm_num at this
  · intro V hV hVi c hc
    by_cases hd : j < d
    · have hL1 : 1 ≤ morphAttributes.length := by
        rcases hL with hL | hL
        · exact hL
        · omega
      obtain ⟨a0, a1, h0, h1⟩ :=
        (row_constants_in_range morphAttributes d j hL1 (by omega) hd).2.2.2.1
      have hval := bake_cell_offset morphAttributes d tWidth tHeight i j c tData a0 a1 hi hj hc
        hd h0 h1 hb
      have hnone : a0[i * 3 + c]? = none := by
        apply List.getElem?_eq_none
        rw [hV a0 (morphArray_mem _ _ _ h0)]
        omega
      rw [hnone] at hval
      exact hval
    · exact hzero (not_lt.mp hd) c (by omega)

/-- Witness of C10: a 2-vertex-wide, 4-row texture for a 3-frame animation of a
one-vertex mesh. -/
theorem bake_validity_witness :
    ∃ tData : List ℚ, bake [[0, 1, 2], [10, 11, 12]] 3 2 4 = some tData ∧
      tData[3 * 2 * 4 + 1 * 4 + 3]? = some 0 ∧
      tData[2 * 2 * 4 + 1 * 4 + 3]? = some 1 ∧
      tData[2 * 2 * 4 + 1 * 4 + 0]? = some 0 := by
  obtain ⟨tData, hb, _, h⟩ := bake_validity [[0, 1, 2], [10, 11, 12]] 3 2 4 (Or.inl (by decide))
  exact ⟨tData, hb, (h 1 3 (by decide) (by decide)).2.2.1 (by decide) 3 (by decide),
    (h 1 2 (by decide) (by decide)).2.1 (by decide),
    (h 1 2 (by decide) (by decide)).2.2.2 1 (by decide) (by decide) 0 (by decide)⟩

end FlowField
